import Mathlib

/-!
Verification development for the validate → clean → derive pipeline of the
stock-classification-valuation repository (files `data_preprocessing_module.py`
and `data_validator.py`).

Modelling conventions (shallow embedding):

* A pandas `DataFrame` is a `Table`: an ordered list of row labels plus an
  ordered association list of columns (pandas is column-oriented; a column is a
  label together with the list of its cells, one per row).
* A cell is `Cell.num q` (a finite float, modelled as a rational), `Cell.nan`
  (the missing-value sentinel `NaN`), or `Cell.text s` (a Python string living
  in an object-dtype column).  Arithmetic and comparisons on `text` cells raise
  `TypeError` in pandas; the embedding makes the corresponding operations
  return `Except.error`.  Comparisons with `nan` are `False`, as in pandas.
* A `pd.Timestamp` is modelled at day granularity: `Ts.day` is the wall-clock
  day number and `Ts.tz` records whether the timestamp is timezone-aware
  (`tz_localize(None)` keeps the wall-clock value, hence just drops the flag).
  `Timedelta.days` on day-granularity values is exact integer subtraction.
* `pd.Timestamp.now()` is modelled by an explicit `now : Int` parameter threaded
  into the functions that consult the clock.
* The float square root used by `rolling(20).std()` is modelled by `Rat.sqrt`;
  none of the proved statements depends on the numeric value of the square
  root, only on it being a fixed function of the window.
* Python exceptions are `Except String`; a `try/except` in the source becomes a
  `match` on the `Except` value.  Python dicts are association lists in
  insertion order; dict assignment is `upsert` (replace the binding if the key
  exists, append otherwise).
-/

/-- A `pd.Timestamp`, at day granularity.  `day` is the wall-clock day number;
`tz` is true when the timestamp is timezone-aware. -/
structure Ts where
  day : Int
  tz : Bool
deriving DecidableEq

/-- An axis label of a DataFrame: either a string or a timestamp. -/
inductive Label where
  | str : String → Label
  | ts : Ts → Label
deriving DecidableEq

/-- `isinstance(l, pd.Timestamp)`. -/
def Label.isTs : Label → Bool
  | Label.ts _ => true
  | Label.str _ => false

/-- A timestamp label that is timezone-naive. -/
def Label.isNaiveTs : Label → Bool
  | Label.ts t => !t.tz
  | Label.str _ => false

/-- A timestamp label that is timezone-aware. -/
def Label.isAwareTs : Label → Bool
  | Label.ts t => t.tz
  | Label.str _ => false

/-- The wall-clock day of a timestamp label. -/
def Label.tsDay : Label → Option Int
  | Label.ts t => some t.day
  | Label.str _ => none

/-- One cell of a DataFrame: a finite float (as a rational), the missing-value
sentinel `NaN`, or a Python string in an object-dtype column. -/
inductive Cell where
  | num : ℚ → Cell
  | nan : Cell
  | text : String → Cell
deriving DecidableEq

/-- `pd.isnull` on one cell: only the `NaN` sentinel is null. -/
def Cell.isNan : Cell → Bool
  | Cell.nan => true
  | _ => false

/-- A cell that a string is not: used to detect object-dtype columns, on which
numeric operations raise `TypeError`. -/
def Cell.isText : Cell → Bool
  | Cell.text _ => true
  | _ => false

/-- A non-null cell (`pd.notnull`). -/
def cellKnown (c : Cell) : Bool := !c.isNan

/-- `str.lower()`, written out cell by cell so that it evaluates inside the
kernel (the library `String.toLower` is opaque to kernel reduction). -/
def strLower (s : String) : String := String.mk (s.toList.map Char.toLower)

/-- `str.replace(" ", "_")` for the single-character pattern used by the
validator, in kernel-evaluable form. -/
def strUnderscore (s : String) : String :=
  String.mk (s.toList.map (fun c => if c = ' ' then '_' else c))

/-- Strip surrounding whitespace, in kernel-evaluable form. -/
def strTrim (s : String) : String :=
  String.mk (((s.toList.dropWhile Char.isWhitespace).reverse.dropWhile
    Char.isWhitespace).reverse)

/-- Digits of a decimal numeral to its value; `none` when a character is not a
digit or the list is empty. -/
def digitsVal : List Char → Option Nat
  | [] => none
  | cs => if cs.all Char.isDigit then
      some (cs.foldl (fun a c => a * 10 + (c.toNat - 48)) 0)
    else none

/-- Split a character list at the first occurrence of `c` (helper for the
numeric-string parser). -/
def breakAt (c : Char) : List Char → List Char × Option (List Char)
  | [] => ([], none)
  | x :: xs =>
    if x = c then ([], some xs)
    else
      let r := breakAt c xs
      (x :: r.1, r.2)

/-- Unsigned decimal mantissa `123`, `12.5`, `.5`, `12.` to a rational. -/
def parseUnsignedDec (cs : List Char) : Option ℚ :=
  let p := breakAt '.' cs
  match p.2 with
  | none => (digitsVal p.1).map (fun n => (n : ℚ))
  | some fp =>
    if p.1.isEmpty && fp.isEmpty then none
    else if (p.1 ++ fp).all Char.isDigit then
      (digitsVal (p.1 ++ fp ++ [Char.ofNat 48])).map
        (fun n => ((n / 10 : ℕ) : ℚ) / ((10 : ℚ) ^ fp.length))
    else none

/-- `pd.to_numeric` on one string: optional sign, decimal mantissa, optional
exponent; `none` when the string does not parse as a number. -/
def parseRat (s : String) : Option ℚ :=
  let cs := (strTrim s).toList.map Char.toLower
  match cs with
  | [] => none
  | _ =>
    let sp : ℚ × List Char :=
      match cs with
      | '-' :: t => (-1, t)
      | '+' :: t => (1, t)
      | t => (1, t)
    let q := breakAt 'e' sp.2
    match parseUnsignedDec q.1, q.2 with
    | none, _ => none
    | some m, none => some (sp.1 * m)
    | some m, some ec =>
      let ep : Int × List Char :=
        match ec with
        | '-' :: t => (-1, t)
        | '+' :: t => (1, t)
        | t => (1, t)
      match digitsVal ep.2 with
      | none => none
      | some e => some (sp.1 * m * (10 : ℚ) ^ (ep.1 * (e : Int)))

/-- `pd.to_numeric(·, errors="coerce")` on one cell: numbers and `NaN` pass
through, strings parse to a number or coerce to `NaN`. -/
def toNumericCell : Cell → Cell
  | Cell.num q => Cell.num q
  | Cell.nan => Cell.nan
  | Cell.text s =>
    match parseRat s with
    | some q => Cell.num q
    | none => Cell.nan

/-- `fillna(0)` on one cell. -/
def fillCellZero (c : Cell) : Cell := if c.isNan then Cell.num 0 else c

/-- A pandas DataFrame: ordered row labels and an ordered association list of
columns (pandas stores a frame column-wise; each column has one cell per row).
Well-formed frames have every column of length `rowLabels.length`. -/
structure Table where
  rowLabels : List Label
  cols : List (Label × List Cell)
deriving DecidableEq

/-- The column labels, in order (`df.columns`). -/
def Table.colNames (t : Table) : List Label := t.cols.map Prod.fst

/-- `df.empty`: true when either axis has length zero. -/
def Table.isEmpty (t : Table) : Bool := t.rowLabels.isEmpty || t.cols.isEmpty

/-- First binding of a key in an association list of columns. -/
def lookupCol : List (Label × List Cell) → Label → Option (List Cell)
  | [], _ => none
  | kv :: rest, k => if kv.1 = k then some kv.2 else lookupCol rest k

/-- Rendering of a label for error messages. -/
def Label.render : Label → String
  | Label.str s => s
  | Label.ts _ => "Timestamp"

/-- `df[k]` as a read: raises `KeyError` when the column is absent. -/
def Table.getColE (t : Table) (k : Label) : Except String (List Cell) :=
  match lookupCol t.cols k with
  | some v => Except.ok v
  | none => Except.error ("KeyError: " ++ k.render)

/-- Replace the first binding of `k`, or append a new one (`df[k] = v`). -/
def upsertCol : List (Label × List Cell) → Label → List Cell → List (Label × List Cell)
  | [], k, v => [(k, v)]
  | kv :: rest, k, v =>
    if kv.1 = k then (k, v) :: rest else kv :: upsertCol rest k v

/-- `df[k] = v` on a table. -/
def Table.setCol (t : Table) (k : Label) (v : List Cell) : Table :=
  { t with cols := upsertCol t.cols k v }

/-- Apply a cell transformation to every column (`df.apply` of an elementwise
function, and `df.fillna`). -/
def Table.mapCells (t : Table) (f : Cell → Cell) : Table :=
  { t with cols := t.cols.map (fun kv => (kv.1, kv.2.map f)) }

/-- `df.transpose()`: columns become rows and rows become columns. -/
def Table.transpose (t : Table) : Table :=
  { rowLabels := t.colNames
    cols := t.rowLabels.enum.map
      (fun p => (p.2, t.cols.map (fun kv => kv.2.getD p.1 Cell.nan))) }

/-- Forward fill of one column, carrying the last non-null cell downward
(leading nulls stay null). -/
def ffillColGo (carry : Cell) : List Cell → List Cell
  | [] => []
  | c :: cs =>
    let c2 := if c.isNan then carry else c
    c2 :: ffillColGo c2 cs

/-- `Series.ffill`. -/
def ffillCol (xs : List Cell) : List Cell := ffillColGo Cell.nan xs

/-- `df.ffill()`: forward fill along the row axis, each column independently. -/
def Table.ffill (t : Table) : Table :=
  { t with cols := t.cols.map (fun kv => (kv.1, ffillCol kv.2)) }

/-- `df.fillna(0)`. -/
def Table.fillnaZero (t : Table) : Table := t.mapCells fillCellZero

/-- The keep-first mask of `~df.index.duplicated(keep="first")`: true exactly
at the first occurrence of each label. -/
def keepMaskGo (seen : List Label) : List Label → List Bool
  | [] => []
  | l :: ls => (!(seen.contains l)) :: keepMaskGo (l :: seen) ls

/-- The keep-first mask of a label list. -/
def keepMask (ls : List Label) : List Bool := keepMaskGo [] ls

/-- Boolean-mask row selection on one list (`df[mask]` applied to one column or
to the index). -/
def maskFilter : List Bool → List α → List α
  | _, [] => []
  | [], _ => []
  | b :: bs, x :: xs => if b then x :: maskFilter bs xs else maskFilter bs xs

/-- `df[~df.index.duplicated(keep="first")]`: drop rows with a duplicate index
label, keeping the first occurrence. -/
def Table.dedupIndex (t : Table) : Table :=
  let m := keepMask t.rowLabels
  { rowLabels := maskFilter m t.rowLabels
    cols := t.cols.map (fun kv => (kv.1, maskFilter m kv.2)) }

/-- Extract the numeric view of a column for an arithmetic or rolling
operation.  A column containing a Python string has object dtype; pandas
raises `TypeError` (elementwise arithmetic) or `DataError` (rolling
aggregation) on it, modelled as an error. -/
def colNums (xs : List Cell) : Except String (List (Option ℚ)) :=
  xs.mapM (fun c =>
    match c with
    | Cell.num q => Except.ok (some q)
    | Cell.nan => Except.ok (none : Option ℚ)
    | Cell.text _ => Except.error "TypeError: unsupported operand type: str")

/-- Pack an optional-rational series back into cells (`NaN` for `none`). -/
def numsToCells (xs : List (Option ℚ)) : List Cell :=
  xs.map (fun o =>
    match o with
    | some q => Cell.num q
    | none => Cell.nan)

/-- Forward fill on an optional-rational series (the `fill_method="pad"`
pre-step of `Series.pct_change`). -/
def ffillOGo (carry : Option ℚ) : List (Option ℚ) → List (Option ℚ)
  | [] => []
  | c :: cs =>
    let c2 := match c with
      | some v => some v
      | none => carry
    c2 :: ffillOGo c2 cs

/-- Forward fill on an optional-rational series. -/
def ffillO (xs : List (Option ℚ)) : List (Option ℚ) := ffillOGo none xs

/-- `Series.pct_change()`: pad-fill, then elementwise fractional change
`(x_i - x_(i-1)) / x_(i-1)`; the first entry and entries with an undefined
neighbour are `NaN`. -/
def pctChangeO (xs : List (Option ℚ)) : List (Option ℚ) :=
  let y := ffillO xs
  y.enum.map (fun p =>
    if p.1 = 0 then none
    else
      match y.getD (p.1 - 1) none, p.2 with
      | some a, some b => some ((b - a) / a)
      | _, _ => none)

/-- Sequence a window: `some` of the values when all are present. -/
def allSome : List (Option ℚ) → Option (List ℚ)
  | [] => some []
  | none :: _ => none
  | some x :: xs => (allSome xs).map (fun l => x :: l)

/-- A rolling aggregation with window `w` and the default
`min_periods = w`: position `i` aggregates positions `i - w + 1 … i` and is
`NaN` unless the window is complete and fully non-null. -/
def rollingAggO (w : Nat) (agg : List ℚ → ℚ) (xs : List (Option ℚ)) : List (Option ℚ) :=
  (List.range xs.length).map (fun i =>
    if i + 1 < w then none
    else
      match allSome ((xs.take (i + 1)).drop (i + 1 - w)) with
      | some vs => some (agg vs)
      | none => none)

/-- Arithmetic mean of a window. -/
def meanQ (l : List ℚ) : ℚ := l.sum / (l.length : ℚ)

/-- Sample standard deviation of a window (`ddof = 1`), with the float square
root modelled by `Rat.sqrt`. -/
def sampleStd (l : List ℚ) : ℚ :=
  Rat.sqrt ((l.map (fun x => (x - meanQ l) ^ 2)).sum / ((l.length - 1 : ℕ) : ℚ))

/-- `Series.rolling(w).mean()`. -/
def rollingMeanO (w : Nat) (xs : List (Option ℚ)) : List (Option ℚ) :=
  rollingAggO w meanQ xs

/-- `Series.rolling(w).std()`. -/
def rollingStdO (w : Nat) (xs : List (Option ℚ)) : List (Option ℚ) :=
  rollingAggO w sampleStd xs

/-- `Series.pct_change()` on a raw column, raising on object dtype. -/
def pctChangeColE (xs : List Cell) : Except String (List Cell) :=
  (colNums xs).map (fun ns => numsToCells (pctChangeO ns))

/-- `Series.rolling(w).mean()` on a raw column, raising on object dtype. -/
def rollingMeanColE (w : Nat) (xs : List Cell) : Except String (List Cell) :=
  (colNums xs).map (fun ns => numsToCells (rollingMeanO w ns))

/-- `Series.rolling(w).std()` on a raw column, raising on object dtype. -/
def rollingStdColE (w : Nat) (xs : List Cell) : Except String (List Cell) :=
  (colNums xs).map (fun ns => numsToCells (rollingStdO w ns))

/-- `DataPreprocessor.clean_historical_data` (data_preprocessing_module.py
lines 14-46).  Empty input is returned unchanged; otherwise fill missing
volume with zero, forward fill, drop duplicate index rows keeping the first,
then derive `Returns`, `MA_50`, `MA_200`, `Volatility_20D` and
`Volume_MA_20`.  Each `df[...]` read is from the current frame and raises
`KeyError` when the column is absent. -/
def clean_historical_data (df : Table) : Except String Table :=
  if df.isEmpty then Except.ok df
  else do
    let vol ← df.getColE (Label.str "Volume")
    let t1 := df.setCol (Label.str "Volume") (vol.map fillCellZero)
    let t2 := t1.ffill
    let t3 := t2.dedupIndex
    let close ← t3.getColE (Label.str "Close")
    let returns ← pctChangeColE close
    let t4 := t3.setCol (Label.str "Returns") returns
    let close2 ← t4.getColE (Label.str "Close")
    let ma50 ← rollingMeanColE 50 close2
    let t5 := t4.setCol (Label.str "MA_50") ma50
    let close3 ← t5.getColE (Label.str "Close")
    let ma200 ← rollingMeanColE 200 close3
    let t6 := t5.setCol (Label.str "MA_200") ma200
    let rets ← t6.getColE (Label.str "Returns")
    let vol20 ← rollingStdColE 20 rets
    let t7 := t6.setCol (Label.str "Volatility_20D") vol20
    let volC ← t7.getColE (Label.str "Volume")
    let volMA ← rollingMeanColE 20 volC
    Except.ok (t7.setCol (Label.str "Volume_MA_20") volMA)

/-- `DataPreprocessor.clean_financial_statement` (lines 48-73).  Empty input
is returned unchanged; otherwise transpose when every column label is a
timestamp, coerce cells to numeric, then fill missing values by statement
type: forward fill for the balance sheet, zero fill for income statement and
cash flow.  No step of this function can raise. -/
def clean_financial_statement (df : Table) (statement_type : String) : Table :=
  if df.isEmpty then df
  else
    let t1 := if df.colNames.all Label.isTs then df.transpose else df
    let t2 := t1.mapCells toNumericCell
    if statement_type = "balance_sheet" then t2.ffill
    else if statement_type = "income_statement" || statement_type = "cash_flow" then
      t2.fillnaZero
    else t2

/-- `dict.get` on a bundle of tables, first binding wins. -/
def lookupTable : List (String × Table) → String → Option Table
  | [], _ => none
  | kv :: rest, k => if kv.1 = k then some kv.2 else lookupTable rest k

/-- The date-selection loop of `calculate_financial_ratios` (lines 98-102):
the columns of the first candidate frame that is present and non-empty. -/
def datesFrom : List (Option Table) → Option (List Label)
  | [] => none
  | none :: rest => datesFrom rest
  | some df :: rest => if !df.isEmpty then some df.colNames else datesFrom rest

/-- `df.loc[k]` for a row label known to exist: the row as a series indexed by
the column labels (row labels are unique in well-formed statement tables, so
the first occurrence is the row). -/
def rowSeries (t : Table) (k : Label) : List (Label × Cell) :=
  match t.rowLabels.findIdx? (fun l => l == k) with
  | some i => t.cols.map (fun kv => (kv.1, kv.2.getD i Cell.nan))
  | none => []

/-- First value of a series at a label. -/
def lookupCell : List (Label × Cell) → Label → Option Cell
  | [], _ => none
  | kv :: rest, k => if kv.1 = k then some kv.2 else lookupCell rest k

/-- Elementwise float division of two cells.  A string operand raises
`TypeError`; a missing operand gives a missing result; an undefined division
(zero denominator) is preserved as a missing value (spec §3: RatioSet keeps
undefined-division results as missing). -/
def cellDivE : Cell → Cell → Except String Cell
  | Cell.text _, _ => Except.error "TypeError: unsupported operand type: str"
  | _, Cell.text _ => Except.error "TypeError: unsupported operand type: str"
  | Cell.nan, _ => Except.ok Cell.nan
  | _, Cell.nan => Except.ok Cell.nan
  | Cell.num a, Cell.num b =>
    if b = 0 then Except.ok Cell.nan else Except.ok (Cell.num (a / b))

/-- `s1 / s2` on two series with a shared index (label-aligned, elementwise). -/
def seriesDivE (s1 s2 : List (Label × Cell)) : Except String (List (Label × Cell)) :=
  s1.mapM (fun kv =>
    (cellDivE kv.2 ((lookupCell s2 kv.1).getD Cell.nan)).map (fun c => (kv.1, c)))

/-- `Series.pct_change()` on a labelled series, raising on object dtype. -/
def seriesPctChangeE (s : List (Label × Cell)) : Except String (List (Label × Cell)) :=
  (colNums (s.map Prod.snd)).map
    (fun ns => List.zip (s.map Prod.fst) (numsToCells (pctChangeO ns)))

/-- `ratios[name] = series`: the series is aligned to the index of `ratios`
label by label; labels absent from the series give missing values. -/
def assignSeries (t : Table) (k : Label) (s : List (Label × Cell)) : Table :=
  t.setCol k (t.rowLabels.map (fun l => (lookupCell s l).getD Cell.nan))

/-- Lines 113-115: `Debt_Ratio` from the balance sheet when both debt rows
are present. -/
def ratiosBsDebt (r : Table) (bs : Option Table) : Except String Table :=
  match bs with
  | none => Except.ok r
  | some b =>
    if b.rowLabels.contains (Label.str "Total Debt") &&
        b.rowLabels.contains (Label.str "Net Debt") then do
      let d ← seriesDivE (rowSeries b (Label.str "Total Debt"))
        (rowSeries b (Label.str "Net Debt"))
      Except.ok (assignSeries r (Label.str "Debt_Ratio") d)
    else Except.ok r

/-- Lines 117-118: `Tangible_Book_Value_Growth`. -/
def ratiosBsTbv (r : Table) (bs : Option Table) : Except String Table :=
  match bs with
  | none => Except.ok r
  | some b =>
    if b.rowLabels.contains (Label.str "Tangible Book Value") then do
      let g ← seriesPctChangeE (rowSeries b (Label.str "Tangible Book Value"))
      Except.ok (assignSeries r (Label.str "Tangible_Book_Value_Growth") g)
    else Except.ok r

/-- Lines 120-121: `EBITDA_Growth`. -/
def ratiosEbitda (r : Table) (istm : Option Table) : Except String Table :=
  match istm with
  | none => Except.ok r
  | some b =>
    if b.rowLabels.contains (Label.str "Normalized EBITDA") then do
      let g ← seriesPctChangeE (rowSeries b (Label.str "Normalized EBITDA"))
      Except.ok (assignSeries r (Label.str "EBITDA_Growth") g)
    else Except.ok r

/-- Lines 123-124: `FCF_Growth`. -/
def ratiosFcf (r : Table) (cf : Option Table) : Except String Table :=
  match cf with
  | none => Except.ok r
  | some b =>
    if b.rowLabels.contains (Label.str "Free Cash Flow") then do
      let g ← seriesPctChangeE (rowSeries b (Label.str "Free Cash Flow"))
      Except.ok (assignSeries r (Label.str "FCF_Growth") g)
    else Except.ok r

/-- The body of the `try` block of `calculate_financial_ratios` (lines
96-126): pick the reporting periods, then add each ratio column whose
prerequisite rows exist. -/
def computeRatiosE (data : List (String × Table)) : Except String Table :=
  match datesFrom [lookupTable data "balance_sheet",
      lookupTable data "income_statement"] with
  | none => Except.ok { rowLabels := [], cols := [] }
  | some dates => do
    let r0 : Table := { rowLabels := dates, cols := [] }
    let bs := lookupTable data "balance_sheet"
    let istm := lookupTable data "income_statement"
    let cf := lookupTable data "cash_flow"
    let r1 ← ratiosBsDebt r0 bs
    let r2 ← ratiosBsTbv r1 bs
    let r3 ← ratiosEbitda r2 istm
    let r4 ← ratiosFcf r3 cf
    Except.ok r4

/-- `DataPreprocessor.calculate_financial_ratios` (lines 94-130): the `try`
body, with any exception caught and turned into a fresh empty frame. -/
def calculate_financial_ratios (data : List (String × Table)) : Table :=
  match computeRatiosE data with
  | Except.ok t => t
  | Except.error _ => { rowLabels := [], cols := [] }

/-- One entry of a validation issues mapping: a message, a list of offending
labels, or a per-column null count. -/
inductive Issue where
  | msg : String → Issue
  | labels : List Label → Issue
  | counts : List (Label × Nat) → Issue
deriving DecidableEq

/-- An issues mapping, in insertion order. -/
abbrev Issues := List (String × Issue)

/-- One `ValidationResult`: pass/fail status, issues, and the freshness
sub-result when the freshness check ran. -/
structure VResult where
  status : Bool
  issues : Issues
  freshness : Option (Bool × String)
deriving DecidableEq

/-- `DataValidator.expected_columns` (data_validator.py lines 12-17). -/
def expected_columns : List (String × List String) :=
  [("historical", ["Open", "High", "Low", "Close", "Volume", "Dividends", "Stock Splits"]),
   ("balance_sheet", ["Net Debt", "Total Debt", "Tangible Book Value", "Ordinary Shares Number"]),
   ("income_statement", ["Tax Rate For Calcs", "Normalized EBITDA"]),
   ("cash_flow", ["Free Cash Flow", "Repayment Of Debt", "Issuance Of Debt", "Capital Expenditure"])]

/-- First binding in a string-keyed association list. -/
def lookupStrList : List (String × List String) → String → Option (List String)
  | [], _ => none
  | kv :: rest, k => if kv.1 = k then some kv.2 else lookupStrList rest k

/-- `isinstance(df.index, pd.DatetimeIndex)`: a DatetimeIndex is non-empty in
a non-empty frame and holds homogeneous timestamps (mixed timezone-awareness
falls back to an object index). -/
def isDatetimeIndexLabels (ls : List Label) : Bool :=
  !ls.isEmpty && ls.all Label.isTs &&
    (ls.all Label.isNaiveTs || ls.all Label.isAwareTs)

/-- `df.index.dtype == "datetime64[ns]"`: only a timezone-naive DatetimeIndex
has this dtype (timezone-aware gives `datetime64[ns, tz]`). -/
def isNaiveDatetimeDtype (ls : List Label) : Bool :=
  !ls.isEmpty && ls.all Label.isNaiveTs

/-- `c < q` on one cell: `False` for the missing sentinel (as NaN comparisons
are in pandas), `TypeError` for a string. -/
def cellLtE (c : Cell) (q : ℚ) : Except String Bool :=
  match c with
  | Cell.num a => Except.ok (decide (a < q))
  | Cell.nan => Except.ok false
  | Cell.text _ => Except.error "TypeError: comparison not supported: str"

/-- `c > q` on one cell. -/
def cellGtE (c : Cell) (q : ℚ) : Except String Bool :=
  match c with
  | Cell.num a => Except.ok (decide (q < a))
  | Cell.nan => Except.ok false
  | Cell.text _ => Except.error "TypeError: comparison not supported: str"

/-- `a < b` on two cells. -/
def cellPairLtE (a b : Cell) : Except String Bool :=
  match a, b with
  | Cell.text _, _ => Except.error "TypeError: comparison not supported: str"
  | _, Cell.text _ => Except.error "TypeError: comparison not supported: str"
  | Cell.num x, Cell.num y => Except.ok (decide (x < y))
  | _, _ => Except.ok false

/-- `(c < lo) | (c > hi)` on one cell. -/
def outsideRangeE (lo hi : ℚ) (c : Cell) : Except String Bool := do
  let b1 ← cellLtE c lo
  let b2 ← cellGtE c hi
  Except.ok (b1 || b2)

/-- Index labels of the entries of a labelled series satisfying a fallible
predicate (`series[mask].index.tolist()`). -/
def offendingLabelsE (s : List (Label × Cell)) (p : Cell → Except String Bool) :
    Except String (List Label) :=
  (s.mapM (fun kv => (p kv.2).map (fun b => (kv.1, b)))).map
    (fun ps => (ps.filter (fun x => x.2)).map Prod.fst)

/-- Per-column null counts with the zero counts dropped
(`null_counts[null_counts > 0].to_dict()`). -/
def nullCounts (t : Table) : List (Label × Nat) :=
  t.cols.filterMap (fun kv =>
    let n := (kv.2.filter Cell.isNan).length
    if n > 0 then some (kv.1, n) else none)

/-- The price-anomaly loop of `validate_historical_data` (lines 48-55), in
source order over `Open`, `High`, `Low`, `Close`. -/
def priceAnomaliesGo (df : Table) (acc : Issues) : List String → Except String Issues
  | [] => Except.ok acc
  | c :: rest => do
    let acc2 ←
      match lookupCol df.cols (Label.str c) with
      | none => pure acc
      | some col => do
        let off ← offendingLabelsE (List.zip df.rowLabels col) (outsideRangeE 0 1000000)
        pure (if !off.isEmpty then acc ++ [(c ++ "_anomalies", Issue.labels off)] else acc)
    priceAnomaliesGo df acc2 rest

/-- One row of the price-consistency check (lines 59-65): `high < low`,
`high < open`, `high < close`, `low > open`, or `low > close`. -/
def rowInconsistentE (hi lo op cl : Cell) : Except String Bool := do
  let b1 ← cellPairLtE hi lo
  let b2 ← cellPairLtE hi op
  let b3 ← cellPairLtE hi cl
  let b4 ← cellPairLtE op lo
  let b5 ← cellPairLtE cl lo
  Except.ok (b1 || b2 || b3 || b4 || b5)

/-- The offending row labels of the price-consistency check. -/
def priceInconsistencyE (df : Table) : Except String (List Label) := do
  let hi := (lookupCol df.cols (Label.str "High")).getD []
  let lo := (lookupCol df.cols (Label.str "Low")).getD []
  let op := (lookupCol df.cols (Label.str "Open")).getD []
  let cl := (lookupCol df.cols (Label.str "Close")).getD []
  let ps ← df.rowLabels.enum.mapM (fun p =>
    (rowInconsistentE (hi.getD p.1 Cell.nan) (lo.getD p.1 Cell.nan)
        (op.getD p.1 Cell.nan) (cl.getD p.1 Cell.nan)).map (fun b => (p.2, b)))
  Except.ok ((ps.filter (fun x => x.2)).map Prod.fst)

/-- `DataValidator.validate_historical_data` (lines 27-78).  Issues are
collected in source order; a `TypeError` from a comparison over an
object-dtype column propagates as an error. -/
def validate_historical_data (df : Table) : Except String (Bool × Issues) := do
  let i1 : Issues :=
    if !isDatetimeIndexLabels df.rowLabels then
      [("invalid_index", Issue.msg "Index is not DatetimeIndex")]
    else []
  let missing := ((lookupStrList expected_columns "historical").getD []).filter
    (fun c => !(df.colNames.contains (Label.str c)))
  let i2 := i1 ++ (if !missing.isEmpty then
    [("missing_columns", Issue.labels (missing.map Label.str))] else [])
  let nulls := nullCounts df
  let i3 := i2 ++ (if !nulls.isEmpty then [("null_values", Issue.counts nulls)] else [])
  let i4 ← priceAnomaliesGo df i3 ["Open", "High", "Low", "Close"]
  let i5 ←
    if ["High", "Low", "Open", "Close"].all (fun c => df.colNames.contains (Label.str c)) then do
      let off ← priceInconsistencyE df
      pure (if !off.isEmpty then i4 ++ [("price_inconsistencies", Issue.labels off)] else i4)
    else pure i4
  let i6 ←
    match lookupCol df.cols (Label.str "Volume") with
    | none => pure i5
    | some col => do
      let off ← offendingLabelsE (List.zip df.rowLabels col) (outsideRangeE 0 1000000000000)
      pure (if !off.isEmpty then i5 ++ [("volume_anomalies", Issue.labels off)] else i5)
  Except.ok (i6.isEmpty, i6)

/-- The debt-range loop of `validate_fundamental_data` (lines 105-114), in
source order over `Net Debt`, `Total Debt`. -/
def debtChecksGo (df : Table) (acc : Issues) : List String → Except String Issues
  | [] => Except.ok acc
  | m :: rest => do
    let acc2 ←
      if df.rowLabels.contains (Label.str m) then do
        let off ← offendingLabelsE (rowSeries df (Label.str m))
          (outsideRangeE (-1000000000000000) 1000000000000000)
        pure (if !off.isEmpty then
          acc ++ [("invalid_" ++ strUnderscore (strLower m), Issue.labels off)]
          else acc)
      else pure acc
    debtChecksGo df acc2 rest

/-- `DataValidator.validate_fundamental_data` (lines 80-126). -/
def validate_fundamental_data (data_type : String) (df : Table) :
    Except String (Bool × Issues) := do
  let nonDate := df.colNames.filter (fun l => !l.isTs)
  let i1 : Issues :=
    if !nonDate.isEmpty then [("non_date_columns", Issue.labels nonDate)] else []
  let i2 := i1 ++
    (match lookupStrList expected_columns data_type with
     | some req =>
       let missing := req.filter (fun m => !(df.rowLabels.contains (Label.str m)))
       if !missing.isEmpty then
         [("missing_metrics", Issue.labels (missing.map Label.str))]
       else []
     | none => [])
  let nulls := nullCounts df
  let i3 := i2 ++ (if !nulls.isEmpty then [("null_values", Issue.counts nulls)] else [])
  let i4 ←
    if data_type = "balance_sheet" then
      debtChecksGo df i3 ["Net Debt", "Total Debt"]
    else if data_type = "income_statement" then
      if df.rowLabels.contains (Label.str "Normalized EBITDA") then do
        let off ← offendingLabelsE (rowSeries df (Label.str "Normalized EBITDA"))
          (outsideRangeE 0 1000000000000000)
        pure (if !off.isEmpty then i3 ++ [("invalid_ebitda", Issue.labels off)] else i3)
      else pure i3
    else pure i3
  Except.ok (i4.isEmpty, i4)

/-- The wall-clock days of the timestamp labels of an axis. -/
def tsDays (ls : List Label) : List Int := ls.filterMap Label.tsDay

/-- `index.max()` over day values. -/
def maxD : List Int → Int
  | [] => 0
  | y :: ys => ys.foldl max y

/-- `DataValidator.validate_data_freshness` (lines 128-155).  `now` models
`pd.Timestamp.now()` at day granularity.  In the column branch a
timezone-aware latest date makes the naive-minus-aware subtraction raise,
which the internal `except` renders as an error message (the Python
exception text itself is not modelled). -/
def validate_data_freshness (df : Table) (now : Int) (max_age_days : Int) :
    Bool × String :=
  if df.isEmpty then (false, "Empty DataFrame")
  else if isDatetimeIndexLabels df.rowLabels then
    let age := now - maxD (tsDays df.rowLabels)
    if age > max_age_days then
      (false, s!"Data is {age} days old (max allowed: {max_age_days})")
    else (true, "Data is fresh")
  else if df.colNames.all Label.isTs then
    if df.colNames.all Label.isNaiveTs then
      let age := now - maxD (tsDays df.colNames)
      if age > max_age_days then
        (false, s!"Data is {age} days old (max allowed: {max_age_days})")
      else (true, "Data is fresh")
    else (false, "Error checking data freshness: TypeError")
  else (false, "No valid dates found")

/-- Substring membership, `needle in hay`. -/
def strContains (hay needle : String) : Bool :=
  hay.toList.tails.any (fun t => needle.toList.isPrefixOf t)

/-- `DataValidator.run_all_validations` (lines 157-192): one result per
bundle entry; empty tables short-circuit; an exception from a single table's
validation is caught and becomes a failing result carrying the error text. -/
def run_all_validations (data : List (String × Table)) (now : Int) :
    List (String × VResult) :=
  data.map (fun kv =>
    (kv.1,
      if kv.2.isEmpty then
        { status := false, issues := [("error", Issue.msg "Empty DataFrame")],
          freshness := none }
      else
        match (if strContains (strLower kv.1) "historical" then
            validate_historical_data kv.2
          else validate_fundamental_data kv.1 kv.2) with
        | Except.ok si =>
          { status := si.1, issues := si.2,
            freshness := some (validate_data_freshness kv.2 now 90) }
        | Except.error e =>
          { status := false, issues := [("error", Issue.msg e)], freshness := none }))

/-- A value of the processed bundle: a table, or the nested
validation-results mapping stored under `validation_results`. -/
inductive PVal where
  | table : Table → PVal
  | validations : List (String × VResult) → PVal
deriving DecidableEq

/-- The processed bundle under construction (`processed_data`), in insertion
order. -/
abbrev PState := List (String × PVal)

/-- Dict assignment on the processed bundle. -/
def upsertP : PState → String → PVal → PState
  | [], k, v => [(k, v)]
  | kv :: rest, k, v =>
    if kv.1 = k then (k, v) :: rest else kv :: upsertP rest k v

/-- Dict lookup on the processed bundle. -/
def lookupP : PState → String → Option PVal
  | [], _ => none
  | kv :: rest, k => if kv.1 = k then some kv.2 else lookupP rest k

/-- The tables of the processed bundle (when the ratio and validation stages
run, the bundle holds only tables, so this is the bundle itself). -/
def tablesOf (s : PState) : List (String × Table) :=
  s.filterMap (fun kv =>
    match kv.2 with
    | PVal.table t => some (kv.1, t)
    | PVal.validations _ => none)

/-- One iteration of the historical loop of `process_stock_data` (lines
143-145): clean the table and store it; a raised exception aborts the `try`
body. -/
def histStep (k : String) (t : Table) : PState → Except String PState :=
  fun s => (clean_historical_data t).map (fun r => upsertP s k (PVal.table r))

/-- The entries of the input bundle whose key contains `historical`, in
order. -/
def histEntries (d : List (String × Table)) : List (String × Table) :=
  d.filter (fun kv => strContains kv.1 "historical")

/-- The historical steps of the pipeline. -/
def mkHistSteps (l : List (String × Table)) : List (PState → Except String PState) :=
  l.map (fun kv => histStep kv.1 kv.2)

/-- Lines 150-151 (and 156-157, 162-163): transpose back to
period-as-columns when the cleaned frame has a `datetime64[ns]` index. -/
def reorientStatement (t : Table) : Table :=
  if isNaiveDatetimeDtype t.rowLabels then t.transpose else t

/-- The statement-cleaning step for one of the three statement keys (lines
148-164); absent keys contribute no step.  Statement cleaning cannot
raise. -/
def stmtStep (d : List (String × Table)) (key : String) :
    List (PState → Except String PState) :=
  match lookupTable d key with
  | some t =>
    [fun s => Except.ok (upsertP s key
      (PVal.table (reorientStatement (clean_financial_statement t key))))]
  | none => []

/-- Lines 166-169: compute the ratio table from the processed tables and
store it only when non-empty. -/
def ratioStep : PState → Except String PState :=
  fun s =>
    let r := calculate_financial_ratios (tablesOf s)
    Except.ok (if !r.isEmpty then upsertP s "financial_ratios" (PVal.table r) else s)

/-- Lines 171-173: run all validations over the processed tables and attach
the mapping. -/
def valStep (now : Int) : PState → Except String PState :=
  fun s => Except.ok (upsertP s "validation_results"
    (PVal.validations (run_all_validations (tablesOf s) now)))

/-- The full step sequence of the `try` body of `process_stock_data`. -/
def pipelineSteps (d : List (String × Table)) (now : Int) :
    List (PState → Except String PState) :=
  mkHistSteps (histEntries d) ++ stmtStep d "balance_sheet" ++
    stmtStep d "income_statement" ++ stmtStep d "cash_flow" ++
    [ratioStep, valStep now]

/-- Run the `try` body: the first raising step aborts the remaining steps,
and the `except` clause returns the bundle in its partially-completed
state. -/
def runSteps : List (PState → Except String PState) → PState → PState
  | [], acc => acc
  | s :: rest, acc =>
    match s acc with
    | Except.ok a => runSteps rest a
    | Except.error _ => acc

/-- `DataPreprocessor.process_stock_data` (lines 133-178). -/
def process_stock_data (d : List (String × Table)) (now : Int) : PState :=
  runSteps (pipelineSteps d now) []

/-! ### General lemmas about the table primitives -/

/-- A key absent from the column names is not found. -/
theorem lookupCol_eq_none (cs : List (Label × List Cell)) (k : Label)
    (h : ¬ k ∈ cs.map Prod.fst) : lookupCol cs k = none := by
  induction cs with
  | nil => rfl
  | cons kv rest ih =>
    simp only [List.map_cons, List.mem_cons] at h
    push_neg at h
    simp [lookupCol, Ne.symm h.1, ih h.2]

/-- A key among the column names is found. -/
theorem lookupCol_isSome (cs : List (Label × List Cell)) (k : Label)
    (h : k ∈ cs.map Prod.fst) : ∃ v, lookupCol cs k = some v := by
  induction cs with
  | nil => simp at h
  | cons kv rest ih =>
    by_cases hk : kv.1 = k
    · exact ⟨kv.2, by simp [lookupCol, hk]⟩
    · simp only [List.map_cons, List.mem_cons] at h
      rcases h with h | h
      · exact absurd h.symm hk
      · rcases ih h with ⟨v, hv⟩
        exact ⟨v, by simp [lookupCol, hk, hv]⟩

/-- Lookup after mapping a function over every column value. -/
theorem lookupCol_mapVal (f : List Cell → List Cell) (cs : List (Label × List Cell))
    (k : Label) :
    lookupCol (cs.map (fun kv => (kv.1, f kv.2))) k = (lookupCol cs k).map f := by
  induction cs with
  | nil => rfl
  | cons kv rest ih =>
    by_cases hk : kv.1 = k <;> simp [lookupCol, hk, ih]

/-- Mapping a function over column values keeps the column names. -/
theorem map_fst_mapVal (f : List Cell → List Cell) (cs : List (Label × List Cell)) :
    (cs.map (fun kv => (kv.1, f kv.2))).map Prod.fst = cs.map Prod.fst := by
  induction cs with
  | nil => rfl
  | cons kv rest ih => simp [ih]

/-- `upsertCol` finds the new binding. -/
theorem lookupCol_upsertCol_self (cs : List (Label × List Cell)) (k : Label)
    (v : List Cell) : lookupCol (upsertCol cs k v) k = some v := by
  induction cs with
  | nil => simp [upsertCol, lookupCol]
  | cons kv rest ih =>
    by_cases hk : kv.1 = k <;> simp [upsertCol, lookupCol, hk, ih]

/-- `upsertCol` keeps other bindings. -/
theorem lookupCol_upsertCol_ne (cs : List (Label × List Cell)) (k k2 : Label)
    (v : List Cell) (h : k2 ≠ k) :
    lookupCol (upsertCol cs k v) k2 = lookupCol cs k2 := by
  have hk2k : ¬ k = k2 := fun hh => h hh.symm
  induction cs with
  | nil => simp [upsertCol, lookupCol, hk2k]
  | cons kv rest ih =>
    by_cases hk : kv.1 = k
    · subst hk
      simp [upsertCol, lookupCol, hk2k]
    · by_cases hk2 : kv.1 = k2 <;> simp [upsertCol, lookupCol, hk, hk2, h, ih]

/-- Membership in the column names after `upsertCol`. -/
theorem mem_map_fst_upsertCol (cs : List (Label × List Cell)) (k l : Label)
    (v : List Cell) :
    l ∈ (upsertCol cs k v).map Prod.fst ↔ l ∈ cs.map Prod.fst ∨ l = k := by
  induction cs with
  | nil => simp [upsertCol]
  | cons kv rest ih =>
    by_cases hk : kv.1 = k
    · subst hk
      by_cases hl : l = kv.1 <;> simp [upsertCol, hl]
    · simp only [upsertCol, if_neg hk, List.map_cons, List.mem_cons, ih]
      tauto

/-- Column names of the cleaning primitives. -/
theorem colNames_ffill (t : Table) : t.ffill.colNames = t.colNames := by
  simp [Table.ffill, Table.colNames, map_fst_mapVal]

/-- Column names of `dedupIndex`. -/
theorem colNames_dedupIndex (t : Table) : t.dedupIndex.colNames = t.colNames := by
  simp [Table.dedupIndex, Table.colNames, map_fst_mapVal]

/-- Column names of `mapCells`. -/
theorem colNames_mapCells (t : Table) (f : Cell → Cell) :
    (t.mapCells f).colNames = t.colNames := by
  simp [Table.mapCells, Table.colNames, map_fst_mapVal]

/-- Membership in the column names after `setCol`. -/
theorem mem_colNames_setCol (t : Table) (k l : Label) (v : List Cell) :
    l ∈ (t.setCol k v).colNames ↔ l ∈ t.colNames ∨ l = k :=
  mem_map_fst_upsertCol t.cols k l v

/-- Row labels are untouched by `setCol`, `ffill`, `mapCells`,
`fillnaZero`. -/
theorem rowLabels_setCol (t : Table) (k : Label) (v : List Cell) :
    (t.setCol k v).rowLabels = t.rowLabels := rfl

/-- Row labels survive `ffill`. -/
theorem rowLabels_ffill (t : Table) : t.ffill.rowLabels = t.rowLabels := rfl

/-- Row labels survive `mapCells`. -/
theorem rowLabels_mapCells (t : Table) (f : Cell → Cell) :
    (t.mapCells f).rowLabels = t.rowLabels := rfl

/-- Decidable equality of `Except` values, for evaluating concrete runs. -/
instance {α β : Type} [DecidableEq α] [DecidableEq β] : DecidableEq (Except α β) :=
  fun a b =>
    match a, b with
    | Except.ok x, Except.ok y =>
      match decEq x y with
      | Decidable.isTrue h => Decidable.isTrue (h ▸ rfl)
      | Decidable.isFalse h => Decidable.isFalse (fun hh => h (Except.ok.inj hh))
    | Except.ok _, Except.error _ => Decidable.isFalse (fun hh => Except.noConfusion hh)
    | Except.error _, Except.ok _ => Decidable.isFalse (fun hh => Except.noConfusion hh)
    | Except.error x, Except.error y =>
      match decEq x y with
      | Decidable.isTrue h => Decidable.isTrue (h ▸ rfl)
      | Decidable.isFalse h => Decidable.isFalse (fun hh => h (Except.error.inj hh))

/-- Monadic bind on `Except` propagates an error. -/
theorem bindE_error {α β : Type} (e : String) (f : α → Except String β) :
    (Except.error e : Except String α) >>= f = Except.error e := rfl

/-- Monadic bind on `Except` applies the continuation to a success. -/
theorem bindE_ok {α β : Type} (a : α) (f : α → Except String β) :
    (Except.ok a : Except String α) >>= f = f a := rfl

/-! ### C10: totality boundary of the historical cleaner -/

/-- C10: `clean_historical_data` is total only when the input is empty or has
both a `Volume` and a `Close` column: an empty input is returned unchanged,
a non-empty input without `Volume` raises `KeyError: Volume`, and a
non-empty input with `Volume` but without `Close` raises `KeyError: Close`
— the key-lookup error branch is reachable at the public interface. -/
theorem clean_historical_requires_volume_close (df : Table) :
    (df.isEmpty = true → clean_historical_data df = Except.ok df) ∧
    (df.isEmpty = false → ¬ (Label.str "Volume") ∈ df.colNames →
      clean_historical_data df = Except.error "KeyError: Volume") ∧
    (df.isEmpty = false → (Label.str "Volume") ∈ df.colNames →
      ¬ (Label.str "Close") ∈ df.colNames →
      clean_historical_data df = Except.error "KeyError: Close") := by
  refine ⟨fun he => by simp [clean_historical_data, he], fun hne hv => ?_,
    fun hne hv hc => ?_⟩
  · have h1 : lookupCol df.cols (Label.str "Volume") = none :=
      lookupCol_eq_none _ _ hv
    simp [clean_historical_data, hne, Table.getColE, h1, Label.render, bindE_error, bindE_ok]
  · obtain ⟨v, hv1⟩ := lookupCol_isSome df.cols _ hv
    have hc3 : ¬ (Label.str "Close") ∈
        (((df.setCol (Label.str "Volume") (v.map fillCellZero)).ffill).dedupIndex).colNames := by
      rw [colNames_dedupIndex, colNames_ffill, mem_colNames_setCol]
      rintro (h | h)
      · exact hc h
      · exact absurd h (by decide)
    have h2 : lookupCol
        (((df.setCol (Label.str "Volume") (v.map fillCellZero)).ffill).dedupIndex).cols
        (Label.str "Close") = none := lookupCol_eq_none _ _ hc3
    simp [clean_historical_data, hne, Table.getColE, hv1, h2, Label.render, bindE_error, bindE_ok]

/-- The empty table. -/
def emptyT : Table := { rowLabels := [], cols := [] }

/-- A one-row table with only a `Close` column. -/
def onlyCloseT : Table :=
  { rowLabels := [Label.ts { day := 0, tz := false }]
    cols := [(Label.str "Close", [Cell.num 1])] }

/-- A one-row table with only a `Volume` column. -/
def onlyVolumeT : Table :=
  { rowLabels := [Label.ts { day := 0, tz := false }]
    cols := [(Label.str "Volume", [Cell.num 1])] }

/-- Witness for C10 at three concrete tables. -/
theorem clean_historical_requires_volume_close_witness :
    clean_historical_data emptyT = Except.ok emptyT ∧
    clean_historical_data onlyCloseT = Except.error "KeyError: Volume" ∧
    clean_historical_data onlyVolumeT = Except.error "KeyError: Close" :=
  ⟨(clean_historical_requires_volume_close _).1 (by decide),
   (clean_historical_requires_volume_close _).2.1 (by decide) (by decide),
   (clean_historical_requires_volume_close _).2.2 (by decide) (by decide) (by decide)⟩

/-! ### C3: freshness boundary -/

/-- The latest timestamp that `validate_data_freshness` derives without
error: the row-axis maximum for a DatetimeIndex (timezone stripped), else
the column-axis maximum when all columns are naive timestamps. -/
def derivableLatest (df : Table) : Option Int :=
  if df.isEmpty then none
  else if isDatetimeIndexLabels df.rowLabels then some (maxD (tsDays df.rowLabels))
  else if df.colNames.all Label.isTs && df.colNames.all Label.isNaiveTs then
    some (maxD (tsDays df.colNames))
  else none

/-- C3: for every non-empty table with a derivable latest timestamp and
every configured maximum age, the table is reported fresh when the computed
age equals `max_age_days` exactly, and stale when the age equals
`max_age_days + 1`, the stale message stating the exact day count and the
allowed maximum. -/
theorem freshness_boundary (df : Table) (now m L : Int)
    (hL : derivableLatest df = some L) :
    (now - L = m → validate_data_freshness df now m = (true, "Data is fresh")) ∧
    (now - L = m + 1 → validate_data_freshness df now m =
      (false, s!"Data is {m + 1} days old (max allowed: {m})")) := by
  unfold derivableLatest at hL
  by_cases he : df.isEmpty
  · simp [he] at hL
  · by_cases hdt : isDatetimeIndexLabels df.rowLabels
    · simp only [he, hdt, if_false, if_true, Bool.false_eq_true, if_neg,
        Option.some.injEq] at hL
      constructor
      · intro hage
        have hage2 : now - maxD (tsDays df.rowLabels) = m := by omega
        simp [validate_data_freshness, he, hdt, hage2]
      · intro hage
        have hage2 : now - maxD (tsDays df.rowLabels) = m + 1 := by omega
        simp [validate_data_freshness, he, hdt, hage2]
    · by_cases hcol : df.colNames.all Label.isTs && df.colNames.all Label.isNaiveTs
      · simp only [he, hdt, hcol, Bool.false_eq_true, if_false, if_true,
          Option.some.injEq] at hL
        rw [Bool.and_eq_true] at hcol
        constructor
        · intro hage
          have hage2 : now - maxD (tsDays df.colNames) = m := by omega
          simp [validate_data_freshness, he, hdt, hcol.1, hcol.2, hage2]
        · intro hage
          have hage2 : now - maxD (tsDays df.colNames) = m + 1 := by omega
          simp [validate_data_freshness, he, hdt, hcol.1, hcol.2, hage2]
      · simp [he, hdt, hcol] at hL

/-- A one-row time-series table whose only timestamp is day 0, naive. -/
def dayZeroT : Table :=
  { rowLabels := [Label.ts { day := 0, tz := false }]
    cols := [(Label.str "A", [Cell.num 1])] }

/-- Witness for C3: at `max_age_days = 90`, age 90 is fresh and age 91 is
stale with the exact message. -/
theorem freshness_boundary_witness :
    validate_data_freshness dayZeroT 90 90 = (true, "Data is fresh") ∧
    validate_data_freshness dayZeroT 91 90 =
      (false, "Data is 91 days old (max allowed: 90)") := by
  refine ⟨(freshness_boundary dayZeroT 90 90 0 (by decide)).1 (by decide), ?_⟩
  have h := (freshness_boundary dayZeroT 91 90 0 (by decide)).2 (by decide)
  rw [h]
  decide

/-! ### C8: empty tables in validation -/

/-- The failing result the code produces for an empty table. -/
def emptyFailVR : VResult :=
  { status := false, issues := [("error", Issue.msg "Empty DataFrame")], freshness := none }

/-- The failing result the claim asserts for an empty table. -/
def claimedEmptyVR : VResult :=
  { status := false, issues := [("error", Issue.msg "Empty data")], freshness := none }

/-- The empty bundle entry used as the C8 counterexample. -/
def emptyBundle : List (String × Table) := [("t", emptyT)]

/-- Counterexample for C8: on an empty table the code's message is
`Empty DataFrame`, not `Empty data` — neither the short-circuited issues
mapping nor the freshness message matches the claimed text. -/
theorem empty_table_message_cex :
    ¬(run_all_validations emptyBundle 0 = [("t", claimedEmptyVR)] ∨
      validate_data_freshness emptyT 0 90 = (false, "Empty data")) := by
  decide

/-- C8 (amended: the message is `Empty DataFrame`): an empty table in a
bundle short-circuits to a failing result whose issues mapping is exactly
`{"error": "Empty DataFrame"}` with no freshness sub-result (the detailed
checks are not run), and the freshness check on any empty table returns
non-fresh with message `Empty DataFrame`. -/
theorem empty_table_short_circuit (d : List (String × Table)) (now : Int)
    (i : Nat) (hi : i < d.length) (hi2 : i < (run_all_validations d now).length)
    (he : (d.get ⟨i, hi⟩).2.isEmpty = true) :
    (run_all_validations d now).get ⟨i, hi2⟩ = ((d.get ⟨i, hi⟩).1, emptyFailVR) ∧
    ∀ t : Table, t.isEmpty = true → ∀ m : Int,
      validate_data_freshness t now m = (false, "Empty DataFrame") := by
  constructor
  · simp only [List.get_eq_getElem] at he ⊢
    simp only [run_all_validations, List.getElem_map]
    rw [if_pos he]
    rfl
  · intro t ht m
    simp [validate_data_freshness, ht]

/-- Witness for C8 at a concrete singleton bundle. -/
theorem empty_table_short_circuit_witness :
    (run_all_validations emptyBundle 0).get ⟨0, by decide⟩ = ("t", emptyFailVR) ∧
    validate_data_freshness emptyT 0 90 = (false, "Empty DataFrame") := by
  have h := empty_table_short_circuit emptyBundle 0 0 (by decide) (by decide) (by decide)
  exact ⟨h.1, h.2 emptyT (by decide) 90⟩

/-! ### C4: per-table failure isolation in `run_all_validations` -/

/-- The failing result produced when a table's validation raises `e`. -/
def errorVR (e : String) : VResult :=
  { status := false, issues := [("error", Issue.msg e)], freshness := none }

/-- C4: `run_all_validations` is total by construction (it never raises) and
returns exactly one result per input key in order; it distributes over
concatenation of bundles, so one table's validation never affects another's;
and when the validation of a single non-empty table raises, the exception is
converted into a failing result carrying the error text. -/
theorem run_all_validations_isolates_failures (d : List (String × Table)) (now : Int) :
    (run_all_validations d now).map Prod.fst = d.map Prod.fst ∧
    (∀ d1 d2 : List (String × Table),
      run_all_validations (d1 ++ d2) now =
        run_all_validations d1 now ++ run_all_validations d2 now) ∧
    (∀ (k : String) (t : Table) (e : String), t.isEmpty = false →
      (if strContains (strLower k) "historical" then validate_historical_data t
       else validate_fundamental_data k t) = Except.error e →
      run_all_validations [(k, t)] now = [(k, errorVR e)]) := by
  refine ⟨?_, ?_, ?_⟩
  · simp [run_all_validations]
  · intro d1 d2
    simp [run_all_validations]
  · intro k t e hne herr
    simp [run_all_validations, hne, herr, errorVR]

/-- A non-empty historical table whose `Open` column holds a string: the
price-anomaly comparison raises `TypeError` inside its validation. -/
def textOpenT : Table :=
  { rowLabels := [Label.ts { day := 0, tz := false }]
    cols := [(Label.str "Open", [Cell.text "oops"])] }

/-- Witness for C4: a concrete bundle whose single table's validation
raises, converted into a failing result with the error text. -/
theorem run_all_validations_isolates_failures_witness :
    run_all_validations [("historical_x", textOpenT)] 0 =
      [("historical_x", errorVR "TypeError: comparison not supported: str")] ∧
    (run_all_validations [("historical_x", textOpenT)] 0).map Prod.fst =
      [("historical_x", textOpenT)].map Prod.fst :=
  ⟨(run_all_validations_isolates_failures [] 0).2.2 "historical_x" textOpenT
      "TypeError: comparison not supported: str" (by decide) (by decide),
   (run_all_validations_isolates_failures [("historical_x", textOpenT)] 0).1⟩

/-! ### C7: the ratio stage is all-or-nothing -/

/-- Inversion of a successful `Except` bind. -/
theorem bindE_ok_inv {α β : Type} {a : Except String α} {f : α → Except String β}
    {r : β} (h : a >>= f = Except.ok r) :
    ∃ x, a = Except.ok x ∧ f x = Except.ok r := by
  cases a with
  | ok x => exact ⟨x, rfl, h⟩
  | error e => exact absurd h (by simp [bindE_error])

/-- Inversion of a successful `Except.map`. -/
theorem mapE_ok_inv {α β : Type} {a : Except String α} {g : α → β} {r : β}
    (h : a.map g = Except.ok r) : ∃ x, a = Except.ok x ∧ r = g x := by
  cases a with
  | ok x => exact ⟨x, rfl, by simpa [Except.map] using h.symm⟩
  | error e => exact absurd h (by simp [Except.map])

/-- C7: `calculate_ratios` is all-or-nothing.  If any exception occurs during
the ratio computation the result is the fresh empty table, never a partial
column set; if neither a non-empty balance sheet nor a non-empty income
statement is available the empty table is returned normally; and on a
successful computation the full computed table is returned. -/
theorem calculate_ratios_all_or_nothing (data : List (String × Table)) :
    ((∃ e, computeRatiosE data = Except.error e) →
      calculate_financial_ratios data = emptyT) ∧
    ((∀ bs, lookupTable data "balance_sheet" = some bs → bs.isEmpty = true) →
     (∀ ist, lookupTable data "income_statement" = some ist → ist.isEmpty = true) →
      calculate_financial_ratios data = emptyT) ∧
    (∀ r, computeRatiosE data = Except.ok r → calculate_financial_ratios data = r) := by
  refine ⟨?_, ?_, ?_⟩
  · rintro ⟨e, he⟩
    simp [calculate_financial_ratios, he, emptyT]
  · intro h1 h2
    have hd : datesFrom [lookupTable data "balance_sheet",
        lookupTable data "income_statement"] = none := by
      cases hbs : lookupTable data "balance_sheet" with
      | none =>
        cases hism : lookupTable data "income_statement" with
        | none => simp [datesFrom]
        | some ist => simp [datesFrom, h2 ist hism]
      | some bs =>
        cases hism : lookupTable data "income_statement" with
        | none => simp [datesFrom, h1 bs hbs]
        | some ist => simp [datesFrom, h1 bs hbs, h2 ist hism]
    simp [calculate_financial_ratios, computeRatiosE, hd, emptyT]
  · intro r hr
    simp [calculate_financial_ratios, hr]

/-- A balance sheet whose debt rows are numeric but whose
`Tangible Book Value` row holds a string, so the growth computation raises
after `Debt_Ratio` was already computed: everything is discarded. -/
def bsBadTbv : Table :=
  { rowLabels := [Label.str "Total Debt", Label.str "Net Debt",
      Label.str "Tangible Book Value"]
    cols := [(Label.ts { day := 0, tz := false },
      [Cell.num 10, Cell.num 5, Cell.text "x"])] }

/-- Witness for C7: an exception mid-computation yields the empty table, and
a bundle with neither statement also yields the empty table. -/
theorem calculate_ratios_all_or_nothing_witness :
    calculate_financial_ratios [("balance_sheet", bsBadTbv)] = emptyT ∧
    calculate_financial_ratios [] = emptyT :=
  ⟨(calculate_ratios_all_or_nothing [("balance_sheet", bsBadTbv)]).1
      ⟨"TypeError: unsupported operand type: str", by decide⟩,
   (calculate_ratios_all_or_nothing []).2.1
      (fun bs h => by simp [lookupTable] at h)
      (fun ist h => by simp [lookupTable] at h)⟩

/-! ### C2: `Debt_Ratio` is elementwise, or absent entirely -/

/-- Default element when indexing a labelled series. -/
def seriesDflt : Label × Cell := (Label.str "", Cell.nan)

/-- Pointwise inversion of a successful fallible map over a list. -/
theorem mapME_ok_inv {α β : Type} (f : α → Except String β) (da : α) (db : β) :
    ∀ (l : List α) (out : List β), l.mapM f = Except.ok out →
      out.length = l.length ∧
      ∀ i, i < l.length → f (l.getD i da) = Except.ok (out.getD i db) := by
  intro l
  induction l with
  | nil =>
    intro out h
    simp only [List.mapM_nil] at h
    cases h
    exact ⟨rfl, fun i hi => absurd hi (by simp)⟩
  | cons a l ih =>
    intro out h
    rw [List.mapM_cons] at h
    obtain ⟨b, hb, h2⟩ := bindE_ok_inv h
    obtain ⟨bs, hbs, h3⟩ := bindE_ok_inv h2
    have hout : out = b :: bs := by
      cases h3
      rfl
    subst hout
    obtain ⟨hlen, hpt⟩ := ih bs hbs
    refine ⟨by simp [hlen], fun i hi => ?_⟩
    cases i with
    | zero => simpa [List.getD] using hb
    | succ j =>
      simp only [List.getD_cons_succ]
      exact hpt j (by simpa using hi)

/-- In a series with duplicate-free labels, looking up the `i`-th label finds
the `i`-th value. -/
theorem lookupCell_self_nodup (s : List (Label × Cell)) (hnd : (s.map Prod.fst).Nodup) :
    ∀ i, i < s.length →
      lookupCell s ((s.getD i seriesDflt).1) = some ((s.getD i seriesDflt).2) := by
  induction s with
  | nil => intro i hi; simp at hi
  | cons kv rest ih =>
    intro i hi
    cases i with
    | zero => simp [lookupCell]
    | succ j =>
      have hj : j < rest.length := by simpa using hi
      have hmem : ((rest.getD j seriesDflt).1) ∈ rest.map Prod.fst := by
        rw [List.getD_eq_getElem rest seriesDflt hj]
        exact List.mem_map_of_mem Prod.fst (rest.getElem_mem hj)
      have hne : ¬ kv.1 = (rest.getD j seriesDflt).1 := by
        simp only [List.map_cons, List.nodup_cons] at hnd
        intro hh
        exact hnd.1 (hh ▸ hmem)
      simp only [List.getD_cons_succ, lookupCell, if_neg hne]
      exact ih (by simp only [List.map_cons, List.nodup_cons] at hnd; exact hnd.2) j hj

/-- Aligning a series to its own duplicate-free label list is the identity on
the values. -/
theorem alignSeries_nodup (s : List (Label × Cell)) (hnd : (s.map Prod.fst).Nodup) :
    (s.map Prod.fst).map (fun l => (lookupCell s l).getD Cell.nan) = s.map Prod.snd := by
  induction s with
  | nil => rfl
  | cons kv rest ih =>
    simp only [List.map_cons, List.nodup_cons] at hnd ⊢
    refine List.cons_eq_cons.mpr ⟨by simp [lookupCell], ?_⟩
    · have : ∀ l ∈ rest.map Prod.fst,
          (lookupCell (kv :: rest) l).getD Cell.nan =
            (lookupCell rest l).getD Cell.nan := by
        intro l hl
        have : ¬ kv.1 = l := fun hh => hnd.1 (hh ▸ hl)
        simp [lookupCell, this]
      rw [List.map_congr_left this]
      exact ih hnd.2

/-- The labels of an extracted row are the column names of the frame. -/
theorem rowSeries_map_fst (b : Table) (k : Label)
    (h : b.rowLabels.contains k = true) :
    (rowSeries b k).map Prod.fst = b.colNames := by
  unfold rowSeries
  cases hf : b.rowLabels.findIdx? (fun l => l == k) with
  | some i => simp [Table.colNames]
  | none =>
    rw [List.findIdx?_eq_none_iff] at hf
    rw [List.contains_eq_any_beq, List.any_eq_true] at h
    obtain ⟨x, hx, hkx⟩ := h
    have hxf := hf x hx
    rw [beq_iff_eq] at hkx
    subst hkx
    simp at hxf

/-- What a successful elementwise series division entails: same length and
labels as the left operand, and the value at every position is the cell
division of the left value by the label-aligned right value. -/
theorem seriesDivE_ok_props {s1 s2 d : List (Label × Cell)}
    (h : seriesDivE s1 s2 = Except.ok d) :
    d.length = s1.length ∧ d.map Prod.fst = s1.map Prod.fst ∧
    ∀ i, i < s1.length →
      cellDivE ((s1.getD i seriesDflt).2)
          ((lookupCell s2 ((s1.getD i seriesDflt).1)).getD Cell.nan) =
        Except.ok ((d.getD i seriesDflt).2) := by
  unfold seriesDivE at h
  obtain ⟨hlen, hpt⟩ := mapME_ok_inv _ seriesDflt seriesDflt s1 d h
  have hpair : ∀ i, i < s1.length →
      ∃ c, cellDivE ((s1.getD i seriesDflt).2)
          ((lookupCell s2 ((s1.getD i seriesDflt).1)).getD Cell.nan) = Except.ok c ∧
        d.getD i seriesDflt = ((s1.getD i seriesDflt).1, c) := by
    intro i hi
    obtain ⟨c, hc, hdc⟩ := mapE_ok_inv (hpt i hi)
    exact ⟨c, hc, hdc⟩
  refine ⟨hlen, ?_, ?_⟩
  · apply List.ext_getElem (by simp [hlen])
    intro i h1 h2
    have hi : i < s1.length := by simpa using h2
    obtain ⟨c, _, hdc⟩ := hpair i hi
    have hd1 : d[i] = d.getD i seriesDflt := (List.getD_eq_getElem d seriesDflt (by omega)).symm
    have hs1 : s1[i] = s1.getD i seriesDflt := (List.getD_eq_getElem s1 seriesDflt hi).symm
    simp only [List.getElem_map, hd1, hs1, hdc]
  · intro i hi
    obtain ⟨c, hc, hdc⟩ := hpair i hi
    rw [hdc]
    exact hc

/-- Looking up a column other than the one just assigned. -/
theorem lookupCol_assignSeries_ne (t : Table) (k k2 : Label)
    (s : List (Label × Cell)) (h : k2 ≠ k) :
    lookupCol (assignSeries t k s).cols k2 = lookupCol t.cols k2 :=
  lookupCol_upsertCol_ne t.cols k k2 _ h

/-- Column names after assigning a series. -/
theorem mem_colNames_assignSeries (t : Table) (k l : Label) (s : List (Label × Cell)) :
    l ∈ (assignSeries t k s).colNames ↔ l ∈ t.colNames ∨ l = k :=
  mem_map_fst_upsertCol t.cols k l _

/-- Row labels after assigning a series. -/
theorem rowLabels_assignSeries (t : Table) (k : Label) (s : List (Label × Cell)) :
    (assignSeries t k s).rowLabels = t.rowLabels := rfl

/-- The `Tangible_Book_Value_Growth` step only touches its own column. -/
theorem ratiosBsTbv_props {r r2 : Table} {bs : Option Table}
    (h : ratiosBsTbv r bs = Except.ok r2) :
    (∀ k, k ≠ Label.str "Tangible_Book_Value_Growth" →
      lookupCol r2.cols k = lookupCol r.cols k) ∧
    (∀ l, l ∈ r2.colNames → l ∈ r.colNames ∨
      l = Label.str "Tangible_Book_Value_Growth") ∧
    r2.rowLabels = r.rowLabels := by
  cases bs with
  | none =>
    simp only [ratiosBsTbv] at h
    cases h
    exact ⟨fun _ _ => rfl, fun l hl => Or.inl hl, rfl⟩
  | some b =>
    simp only [ratiosBsTbv] at h
    by_cases hc : b.rowLabels.contains (Label.str "Tangible Book Value") = true
    · rw [if_pos hc] at h
      obtain ⟨g, hg, h2⟩ := bindE_ok_inv h
      cases h2
      exact ⟨fun k hk => lookupCol_assignSeries_ne r _ k _ hk,
        fun l hl => (mem_colNames_assignSeries r _ l _).mp hl,
        rowLabels_assignSeries r _ _⟩
    · rw [if_neg hc] at h
      cases h
      exact ⟨fun _ _ => rfl, fun l hl => Or.inl hl, rfl⟩

/-- The `EBITDA_Growth` step only touches its own column. -/
theorem ratiosEbitda_props {r r2 : Table} {istm : Option Table}
    (h : ratiosEbitda r istm = Except.ok r2) :
    (∀ k, k ≠ Label.str "EBITDA_Growth" →
      lookupCol r2.cols k = lookupCol r.cols k) ∧
    (∀ l, l ∈ r2.colNames → l ∈ r.colNames ∨ l = Label.str "EBITDA_Growth") ∧
    r2.rowLabels = r.rowLabels := by
  cases istm with
  | none =>
    simp only [ratiosEbitda] at h
    cases h
    exact ⟨fun _ _ => rfl, fun l hl => Or.inl hl, rfl⟩
  | some b =>
    simp only [ratiosEbitda] at h
    by_cases hc : b.rowLabels.contains (Label.str "Normalized EBITDA") = true
    · rw [if_pos hc] at h
      obtain ⟨g, hg, h2⟩ := bindE_ok_inv h
      cases h2
      exact ⟨fun k hk => lookupCol_assignSeries_ne r _ k _ hk,
        fun l hl => (mem_colNames_assignSeries r _ l _).mp hl,
        rowLabels_assignSeries r _ _⟩
    · rw [if_neg hc] at h
      cases h
      exact ⟨fun _ _ => rfl, fun l hl => Or.inl hl, rfl⟩

/-- The `FCF_Growth` step only touches its own column. -/
theorem ratiosFcf_props {r r2 : Table} {cf : Option Table}
    (h : ratiosFcf r cf = Except.ok r2) :
    (∀ k, k ≠ Label.str "FCF_Growth" →
      lookupCol r2.cols k = lookupCol r.cols k) ∧
    (∀ l, l ∈ r2.colNames → l ∈ r.colNames ∨ l = Label.str "FCF_Growth") ∧
    r2.rowLabels = r.rowLabels := by
  cases cf with
  | none =>
    simp only [ratiosFcf] at h
    cases h
    exact ⟨fun _ _ => rfl, fun l hl => Or.inl hl, rfl⟩
  | some b =>
    simp only [ratiosFcf] at h
    by_cases hc : b.rowLabels.contains (Label.str "Free Cash Flow") = true
    · rw [if_pos hc] at h
      obtain ⟨g, hg, h2⟩ := bindE_ok_inv h
      cases h2
      exact ⟨fun k hk => lookupCol_assignSeries_ne r _ k _ hk,
        fun l hl => (mem_colNames_assignSeries r _ l _).mp hl,
        rowLabels_assignSeries r _ _⟩
    · rw [if_neg hc] at h
      cases h
      exact ⟨fun _ _ => rfl, fun l hl => Or.inl hl, rfl⟩

/-- Column-name tracking through the `Debt_Ratio` step, and its behaviour
when a required row is missing. -/
theorem ratiosBsDebt_props {r r2 : Table} {bs : Option Table}
    (h : ratiosBsDebt r bs = Except.ok r2) :
    (∀ l, l ∈ r2.colNames → l ∈ r.colNames ∨ l = Label.str "Debt_Ratio") ∧
    (∀ b, bs = some b →
      (b.rowLabels.contains (Label.str "Total Debt") &&
        b.rowLabels.contains (Label.str "Net Debt")) = false → r2 = r) := by
  cases bs with
  | none =>
    simp only [ratiosBsDebt] at h
    cases h
    exact ⟨fun l hl => Or.inl hl, fun b hb => by cases hb⟩
  | some b =>
    simp only [ratiosBsDebt] at h
    by_cases hc : (b.rowLabels.contains (Label.str "Total Debt") &&
        b.rowLabels.contains (Label.str "Net Debt")) = true
    · rw [if_pos hc] at h
      obtain ⟨dv, hdv, h2⟩ := bindE_ok_inv h
      cases h2
      exact ⟨fun l hl => (mem_colNames_assignSeries r _ l _).mp hl,
        fun b2 hb2 hfalse => by cases hb2; rw [hc] at hfalse; cases hfalse⟩
    · rw [if_neg hc] at h
      cases h
      exact ⟨fun l hl => Or.inl hl, fun _ _ _ => rfl⟩

/-- The first component of an indexed series element is the corresponding
label-list entry. -/
theorem getD_fst_eq (s : List (Label × Cell)) (i : Nat) (hi : i < s.length) :
    (s.getD i seriesDflt).1 = (s.map Prod.fst).getD i (Label.str "") := by
  rw [List.getD_eq_getElem s seriesDflt hi,
    List.getD_eq_getElem (s.map Prod.fst) (Label.str "") (by simpa using hi)]
  simp

/-- C2: when the balance sheet contains both debt rows and the ratio
computation completes, `Debt_Ratio` is present and equals, period by period,
the elementwise division of the `Total Debt` row value by the `Net Debt` row
value (labels unique per the data model); and when either required row is
missing, the `Debt_Ratio` column is absent from the result entirely, never
present with missing values. -/
theorem debt_ratio_elementwise_or_absent (data : List (String × Table)) (bs : Table)
    (hbs : lookupTable data "balance_sheet" = some bs) :
    (∀ r, computeRatiosE data = Except.ok r →
      bs.isEmpty = false →
      bs.rowLabels.contains (Label.str "Total Debt") = true →
      bs.rowLabels.contains (Label.str "Net Debt") = true →
      ∃ dcol, lookupCol (calculate_financial_ratios data).cols
          (Label.str "Debt_Ratio") = some dcol ∧
        dcol.length = bs.cols.length ∧
        (bs.colNames.Nodup →
          ∀ i, i < bs.cols.length →
            cellDivE ((rowSeries bs (Label.str "Total Debt")).getD i seriesDflt).2
                ((rowSeries bs (Label.str "Net Debt")).getD i seriesDflt).2 =
              Except.ok (dcol.getD i Cell.nan))) ∧
    ((bs.rowLabels.contains (Label.str "Total Debt") = false ∨
      bs.rowLabels.contains (Label.str "Net Debt") = false) →
      ¬ (Label.str "Debt_Ratio") ∈ (calculate_financial_ratios data).colNames) := by
  constructor
  · intro r hok hne hTD hND
    have hcalc : calculate_financial_ratios data = r := by
      simp [calculate_financial_ratios, hok]
    rw [hcalc]
    have hdates : datesFrom [lookupTable data "balance_sheet",
        lookupTable data "income_statement"] = some bs.colNames := by
      simp [datesFrom, hbs, hne]
    unfold computeRatiosE at hok
    rw [hdates] at hok
    simp only [hbs] at hok
    obtain ⟨r1, hr1, hok2⟩ := bindE_ok_inv hok
    obtain ⟨r2, hr2, hok3⟩ := bindE_ok_inv hok2
    obtain ⟨r3, hr3, hok4⟩ := bindE_ok_inv hok3
    obtain ⟨r4, hr4, hok5⟩ := bindE_ok_inv hok4
    have hrr : r = r4 := by
      cases hok5
      rfl
    subst hrr
    have hcond : (bs.rowLabels.contains (Label.str "Total Debt") &&
        bs.rowLabels.contains (Label.str "Net Debt")) = true := by
      rw [hTD, hND]
      rfl
    simp only [ratiosBsDebt, if_pos hcond] at hr1
    obtain ⟨dv, hdv, hr1b⟩ := bindE_ok_inv hr1
    have hr1c : r1 = assignSeries { rowLabels := bs.colNames, cols := [] }
        (Label.str "Debt_Ratio") dv := by
      cases hr1b
      rfl
    have hlk : lookupCol r.cols (Label.str "Debt_Ratio") =
        some (bs.colNames.map (fun l => (lookupCell dv l).getD Cell.nan)) := by
      rw [(ratiosFcf_props hr4).1 _ (by decide),
        (ratiosEbitda_props hr3).1 _ (by decide),
        (ratiosBsTbv_props hr2).1 _ (by decide), hr1c]
      exact lookupCol_upsertCol_self _ _ _
    refine ⟨bs.colNames.map (fun l => (lookupCell dv l).getD Cell.nan), hlk,
      by simp [Table.colNames], ?_⟩
    intro hnodup i hi
    obtain ⟨hdlen, hdf, hdpt⟩ := seriesDivE_ok_props hdv
    have hs1f : (rowSeries bs (Label.str "Total Debt")).map Prod.fst = bs.colNames :=
      rowSeries_map_fst bs _ hTD
    have hs2f : (rowSeries bs (Label.str "Net Debt")).map Prod.fst = bs.colNames :=
      rowSeries_map_fst bs _ hND
    have hs1len : (rowSeries bs (Label.str "Total Debt")).length = bs.cols.length := by
      have := congrArg List.length hs1f
      simpa [Table.colNames] using this
    have hs2len : (rowSeries bs (Label.str "Net Debt")).length = bs.cols.length := by
      have := congrArg List.length hs2f
      simpa [Table.colNames] using this
    have hdcol : bs.colNames.map (fun l => (lookupCell dv l).getD Cell.nan) =
        dv.map Prod.snd := by
      have hdvf : dv.map Prod.fst = bs.colNames := by rw [hdf, hs1f]
      have := alignSeries_nodup dv (by rw [hdvf]; exact hnodup)
      rw [hdvf] at this
      exact this
    have hi1 : i < (rowSeries bs (Label.str "Total Debt")).length := by omega
    have hpt := hdpt i hi1
    have hfst1 : ((rowSeries bs (Label.str "Total Debt")).getD i seriesDflt).1 =
        bs.colNames.getD i (Label.str "") := by
      rw [getD_fst_eq _ i hi1, hs1f]
    have hfst2 : ((rowSeries bs (Label.str "Net Debt")).getD i seriesDflt).1 =
        bs.colNames.getD i (Label.str "") := by
      rw [getD_fst_eq _ i (by omega), hs2f]
    have hlook2 : lookupCell (rowSeries bs (Label.str "Net Debt"))
        (((rowSeries bs (Label.str "Total Debt")).getD i seriesDflt).1) =
        some (((rowSeries bs (Label.str "Net Debt")).getD i seriesDflt).2) := by
      rw [hfst1, ← hfst2]
      exact lookupCell_self_nodup _ (by rw [hs2f]; exact hnodup) i (by omega)
    rw [hlook2] at hpt
    have hdval : (bs.colNames.map (fun l => (lookupCell dv l).getD Cell.nan)).getD
        i Cell.nan = (dv.getD i seriesDflt).2 := by
      rw [hdcol]
      have hidv : i < dv.length := by
        rw [hdlen]
        omega
      rw [List.getD_eq_getElem _ Cell.nan (by simpa using hidv),
        List.getD_eq_getElem dv seriesDflt hidv]
      simp
    rw [hdval]
    simpa using hpt
  · intro hmiss hmem
    cases hok : computeRatiosE data with
    | error e =>
      rw [calculate_financial_ratios, hok] at hmem
      simp [Table.colNames] at hmem
    | ok r =>
      have hcalc : calculate_financial_ratios data = r := by
        simp [calculate_financial_ratios, hok]
      rw [hcalc] at hmem
      cases hd : datesFrom [lookupTable data "balance_sheet",
          lookupTable data "income_statement"] with
      | none =>
        unfold computeRatiosE at hok
        rw [hd] at hok
        simp only [] at hok
        cases hok
        simp [Table.colNames] at hmem
      | some dates =>
        unfold computeRatiosE at hok
        rw [hd] at hok
        simp only [hbs] at hok
        obtain ⟨r1, hr1, hok2⟩ := bindE_ok_inv hok
        obtain ⟨r2, hr2, hok3⟩ := bindE_ok_inv hok2
        obtain ⟨r3, hr3, hok4⟩ := bindE_ok_inv hok3
        obtain ⟨r4, hr4, hok5⟩ := bindE_ok_inv hok4
        have hrr : r = r4 := by
          cases hok5
          rfl
        subst hrr
        have hcond : (bs.rowLabels.contains (Label.str "Total Debt") &&
            bs.rowLabels.contains (Label.str "Net Debt")) = false := by
          rcases hmiss with hm | hm
          · rw [hm, Bool.false_and]
          · rw [hm, Bool.and_false]
        have hr1r0 := (ratiosBsDebt_props hr1).2 bs rfl hcond
        subst hr1r0
        rcases (ratiosFcf_props hr4).2.1 _ hmem with h4 | h4
        · rcases (ratiosEbitda_props hr3).2.1 _ h4 with h3 | h3
          · rcases (ratiosBsTbv_props hr2).2.1 _ h3 with h2 | h2
            · simp [Table.colNames] at h2
            · exact absurd h2 (by decide)
          · exact absurd h3 (by decide)
        · exact absurd h4 (by decide)

/-- A balance sheet with both debt rows over two periods. -/
def wBsBoth : Table :=
  { rowLabels := [Label.str "Total Debt", Label.str "Net Debt"]
    cols := [(Label.ts { day := 0, tz := false }, [Cell.num 10, Cell.num 5]),
             (Label.ts { day := 1, tz := false }, [Cell.num 20, Cell.num 4])] }

/-- A balance sheet missing the `Net Debt` row. -/
def wBsNoNet : Table :=
  { rowLabels := [Label.str "Total Debt"]
    cols := [(Label.ts { day := 0, tz := false }, [Cell.num 10])] }

/-- Witness for C2 at concrete bundles: with both rows the `Debt_Ratio`
column is present with the elementwise quotients; without `Net Debt` it is
absent. -/
theorem debt_ratio_elementwise_or_absent_witness :
    (∃ dcol, lookupCol (calculate_financial_ratios [("balance_sheet", wBsBoth)]).cols
        (Label.str "Debt_Ratio") = some dcol ∧
      dcol.length = wBsBoth.cols.length ∧
      (wBsBoth.colNames.Nodup →
        ∀ i, i < wBsBoth.cols.length →
          cellDivE ((rowSeries wBsBoth (Label.str "Total Debt")).getD i seriesDflt).2
              ((rowSeries wBsBoth (Label.str "Net Debt")).getD i seriesDflt).2 =
            Except.ok (dcol.getD i Cell.nan))) ∧
    ¬ (Label.str "Debt_Ratio") ∈
      (calculate_financial_ratios [("balance_sheet", wBsNoNet)]).colNames :=
  ⟨(debt_ratio_elementwise_or_absent [("balance_sheet", wBsBoth)] wBsBoth (by decide)).1
      (calculate_financial_ratios [("balance_sheet", wBsBoth)]) rfl
      (by decide) (by decide) (by decide),
   (debt_ratio_elementwise_or_absent [("balance_sheet", wBsNoNet)] wBsNoNet (by decide)).2
      (Or.inr (by decide))⟩

/-! ### C6: category-specific missing-value policy -/

/-- Forward fill at position `i` yields the last non-null cell among the
first `i + 1` cells (seeded with the carry). -/
theorem ffillColGo_getD (carry : Cell) (xs : List Cell) :
    ∀ i, i < xs.length →
      (ffillColGo carry xs).getD i Cell.nan =
        (xs.take (i + 1)).foldl (fun acc c => if c.isNan then acc else c) carry := by
  induction xs generalizing carry with
  | nil => intro i hi; simp at hi
  | cons c cs ih =>
    intro i hi
    cases i with
    | zero => simp [ffillColGo]
    | succ j =>
      have hj : j < cs.length := by simpa using hi
      simp only [ffillColGo, List.getD_cons_succ, List.take_succ_cons, List.foldl_cons]
      exact ih _ j hj

/-- A two-row statement table with a missing cell below a known value 5. -/
def wStmtGap : Table :=
  { rowLabels := [Label.str "A", Label.str "B"]
    cols := [(Label.str "P", [Cell.num 5, Cell.nan])] }

/-- The shared pre-fill stage of `clean_financial_statement` on non-empty
input (lines 60-65): transpose when all columns are timestamps, then coerce
to numeric. -/
def statementPre (df : Table) : Table :=
  (if df.colNames.all Label.isTs then df.transpose else df).mapCells toNumericCell

/-- C6: on every non-empty statement table, balance-sheet cleaning forward
fills (each cell becomes the last non-missing value at or before it along
the row axis, which is the period axis once transposed), while income
statement and cash flow cleaning replace missing values with zero; and there
is a missing-value pattern with a non-zero adjacent known value on which the
two policies differ observably. -/
theorem statement_fill_policy_by_category (df : Table) (hne : df.isEmpty = false) :
    clean_financial_statement df "balance_sheet" = (statementPre df).ffill ∧
    clean_financial_statement df "income_statement" = (statementPre df).fillnaZero ∧
    clean_financial_statement df "cash_flow" = (statementPre df).fillnaZero ∧
    (∀ k col, lookupCol (statementPre df).cols k = some col →
      lookupCol (clean_financial_statement df "balance_sheet").cols k =
        some (ffillCol col) ∧
      lookupCol (clean_financial_statement df "income_statement").cols k =
        some (col.map fillCellZero) ∧
      ∀ i, i < col.length →
        (ffillCol col).getD i Cell.nan =
          (col.take (i + 1)).foldl (fun acc c => if c.isNan then acc else c)
            Cell.nan ∧
        (col.map fillCellZero).getD i Cell.nan = fillCellZero (col.getD i Cell.nan)) ∧
    (∃ df0 : Table, df0.isEmpty = false ∧
      clean_financial_statement df0 "balance_sheet" ≠
        clean_financial_statement df0 "income_statement") := by
  have h1 : clean_financial_statement df "balance_sheet" = (statementPre df).ffill := by
    simp [clean_financial_statement, statementPre, hne]
  have h2 : clean_financial_statement df "income_statement" =
      (statementPre df).fillnaZero := by
    simp [clean_financial_statement, statementPre, hne]
  have h3 : clean_financial_statement df "cash_flow" = (statementPre df).fillnaZero := by
    simp [clean_financial_statement, statementPre, hne]
  refine ⟨h1, h2, h3, ?_, ?_⟩
  · intro k col hcol
    refine ⟨?_, ?_, ?_⟩
    · rw [h1]
      show lookupCol ((statementPre df).cols.map
        (fun kv => (kv.1, ffillCol kv.2))) k = some (ffillCol col)
      rw [lookupCol_mapVal, hcol]
      rfl
    · rw [h2]
      show lookupCol ((statementPre df).cols.map
        (fun kv => (kv.1, kv.2.map fillCellZero))) k = some (col.map fillCellZero)
      rw [lookupCol_mapVal, hcol]
      rfl
    · intro i hi
      refine ⟨ffillColGo_getD Cell.nan col i hi, ?_⟩
      rw [List.getD_eq_getElem (col.map fillCellZero) Cell.nan (by simpa using hi),
        List.getD_eq_getElem col Cell.nan hi]
      simp
  · exact ⟨wStmtGap, by decide, by decide⟩

/-- Witness for C6 at a concrete table: forward fill propagates 5 into the
gap, zero fill writes 0 there. -/
theorem statement_fill_policy_by_category_witness :
    lookupCol (clean_financial_statement wStmtGap "balance_sheet").cols
      (Label.str "P") = some [Cell.num 5, Cell.num 5] ∧
    lookupCol (clean_financial_statement wStmtGap "income_statement").cols
      (Label.str "P") = some [Cell.num 5, Cell.num 0] := by
  have h := ((statement_fill_policy_by_category wStmtGap (by decide)).2.2.2.1)
    (Label.str "P") [Cell.num 5, Cell.nan] (by decide)
  refine ⟨?_, ?_⟩
  · rw [h.1]
    decide
  · rw [h.2.1]
    decide

/-! ### Lemmas about the pipeline step runner -/

/-- `upsertP` finds the new binding. -/
theorem lookupP_upsertP_self (s : PState) (k : String) (v : PVal) :
    lookupP (upsertP s k v) k = some v := by
  induction s with
  | nil => simp [upsertP, lookupP]
  | cons kv rest ih =>
    by_cases hk : kv.1 = k <;> simp [upsertP, lookupP, hk, ih]

/-- `upsertP` keeps other bindings. -/
theorem lookupP_upsertP_ne (s : PState) (k k2 : String) (v : PVal) (h : k2 ≠ k) :
    lookupP (upsertP s k v) k2 = lookupP s k2 := by
  have hk2k : ¬ k = k2 := fun hh => h hh.symm
  induction s with
  | nil => simp [upsertP, lookupP, hk2k]
  | cons kv rest ih =>
    by_cases hk : kv.1 = k
    · subst hk
      simp [upsertP, lookupP, hk2k]
    · by_cases hk2 : kv.1 = k2 <;> simp [upsertP, lookupP, hk, hk2, h, ih]

/-- A run of all-successful steps splits across an append. -/
theorem runSteps_append_ok (l1 l2 : List (PState → Except String PState)) :
    ∀ acc : PState, (∀ s ∈ l1, ∀ st, ∃ st2, s st = Except.ok st2) →
      runSteps (l1 ++ l2) acc = runSteps l2 (runSteps l1 acc) := by
  induction l1 with
  | nil => intro acc h; rfl
  | cons s rest ih =>
    intro acc h
    obtain ⟨st2, hst2⟩ := h s (List.mem_cons_self s rest) acc
    simp only [List.cons_append, runSteps, hst2]
    exact ih st2 (fun s2 hs2 st => h s2 (List.mem_cons_of_mem s hs2) st)

/-- A run of steps that each preserve one key's binding preserves it. -/
theorem runSteps_preserves_lookup (l : List (PState → Except String PState))
    (key : String)
    (h : ∀ s ∈ l, ∀ st st2, s st = Except.ok st2 → lookupP st2 key = lookupP st key) :
    ∀ acc, lookupP (runSteps l acc) key = lookupP acc key := by
  induction l with
  | nil => intro acc; rfl
  | cons s rest ih =>
    intro acc
    cases hs : s acc with
    | ok a =>
      simp only [runSteps, hs]
      rw [ih (fun s2 hs2 => h s2 (List.mem_cons_of_mem s hs2)) a,
        h s (List.mem_cons_self s rest) acc a hs]
    | error e => simp [runSteps, hs]

/-- Historical steps over tables that clean successfully are all-successful. -/
theorem mkHistSteps_ok (l : List (String × Table))
    (h : ∀ kv ∈ l, ∃ r, clean_historical_data kv.2 = Except.ok r) :
    ∀ s ∈ mkHistSteps l, ∀ st, ∃ st2, s st = Except.ok st2 := by
  intro s hs st
  simp only [mkHistSteps, List.mem_map] at hs
  obtain ⟨kv, hkv, hseq⟩ := hs
  obtain ⟨r, hr⟩ := h kv hkv
  exact ⟨upsertP st kv.1 (PVal.table r), by rw [← hseq]; simp [histStep, hr, Except.map]⟩

/-- Statement steps are always successful. -/
theorem stmtStep_ok (d : List (String × Table)) (key : String) :
    ∀ s ∈ stmtStep d key, ∀ st, ∃ st2, s st = Except.ok st2 := by
  intro s hs st
  unfold stmtStep at hs
  cases h : lookupTable d key with
  | some t =>
    rw [h] at hs
    simp only [List.mem_singleton] at hs
    subst hs
    exact ⟨_, rfl⟩
  | none =>
    rw [h] at hs
    simp at hs

/-- A statement step for a different key preserves a key's binding. -/
theorem stmtStep_preserves (d : List (String × Table)) (k2 key : String)
    (h : key ≠ k2) :
    ∀ s ∈ stmtStep d k2, ∀ st st2, s st = Except.ok st2 →
      lookupP st2 key = lookupP st key := by
  intro s hs st st2 hok
  unfold stmtStep at hs
  cases hl : lookupTable d k2 with
  | some t =>
    rw [hl] at hs
    simp only [List.mem_singleton] at hs
    subst hs
    cases hok
    exact lookupP_upsertP_ne st k2 key _ h
  | none =>
    rw [hl] at hs
    simp at hs

/-- The ratio step preserves every key but `financial_ratios`. -/
theorem ratioStep_preserves (key : String) (h : key ≠ "financial_ratios") :
    ∀ st st2, ratioStep st = Except.ok st2 → lookupP st2 key = lookupP st key := by
  intro st st2 hok
  unfold ratioStep at hok
  cases hok
  by_cases hr : (calculate_financial_ratios (tablesOf st)).isEmpty
  · simp [hr]
  · simp only [hr, Bool.not_false, if_pos]
    exact lookupP_upsertP_ne st _ key _ h

/-- The validation step preserves every key but `validation_results`. -/
theorem valStep_preserves (now : Int) (key : String)
    (h : key ≠ "validation_results") :
    ∀ st st2, valStep now st = Except.ok st2 → lookupP st2 key = lookupP st key := by
  intro st st2 hok
  cases hok
  exact lookupP_upsertP_ne st _ key _ h

/-- Running a prefix of successful steps, then a step that stores `out` under
`key`, then steps that preserve `key`, leaves `out` bound to `key`. -/
theorem runSteps_key_step (lpre lpost : List (PState → Except String PState))
    (key : String) (out : PVal)
    (hpre : ∀ s ∈ lpre, ∀ st, ∃ st2, s st = Except.ok st2)
    (hpost : ∀ s ∈ lpost, ∀ st st2, s st = Except.ok st2 →
      lookupP st2 key = lookupP st key) :
    lookupP (runSteps (lpre ++
      (fun s => Except.ok (upsertP s key out)) :: lpost) []) key = some out := by
  rw [runSteps_append_ok _ _ _ hpre]
  simp only [runSteps]
  rw [runSteps_preserves_lookup lpost key hpost]
  exact lookupP_upsertP_self _ _ _

/-! ### C1: `process_bundle` stops at the first failure -/

/-- Keys bound after running historical steps come from the accumulator or
from the processed entries. -/
theorem runSteps_mkHistSteps_keys (l : List (String × Table)) :
    ∀ (acc : PState) (key : String),
      lookupP (runSteps (mkHistSteps l) acc) key ≠ none →
      lookupP acc key ≠ none ∨ key ∈ l.map Prod.fst := by
  induction l with
  | nil => intro acc key h; exact Or.inl h
  | cons kv rest ih =>
    intro acc key h
    simp only [mkHistSteps, List.map_cons] at h
    cases hs : histStep kv.1 kv.2 acc with
    | ok a =>
      simp only [runSteps, hs] at h
      rcases ih a key h with h1 | h1
      · unfold histStep at hs
        obtain ⟨r, _, ha⟩ := mapE_ok_inv hs
        by_cases hk : key = kv.1
        · exact Or.inr (by simp [hk])
        · left
          rw [ha, lookupP_upsertP_ne acc kv.1 key _ hk] at h1
          exact h1
      · exact Or.inr (List.mem_cons_of_mem _ h1)
    | error e =>
      simp only [runSteps, hs] at h
      exact Or.inl h

/-- C1 (amended): if cleaning one table raises inside `process_bundle`, the
exception is not propagated, but later categories do not complete: the
returned bundle is exactly the result of the historical cleaning steps that
ran before the failing one, and every key of the output comes from those
entries — later historical tables, all statement tables, the ratio table and
the validation results are absent. -/
theorem process_bundle_stops_at_first_failure
    (d : List (String × Table)) (now : Int)
    (pre post : List (String × Table)) (k : String) (t : Table) (e : String)
    (hsplit : histEntries d = pre ++ (k, t) :: post)
    (hpre : ∀ kv ∈ pre, ∃ r, clean_historical_data kv.2 = Except.ok r)
    (hfail : clean_historical_data t = Except.error e) :
    process_stock_data d now = runSteps (mkHistSteps pre) [] ∧
    ∀ key, lookupP (process_stock_data d now) key ≠ none →
      key ∈ pre.map Prod.fst := by
  have hmk : mkHistSteps (histEntries d) =
      mkHistSteps pre ++ histStep k t :: mkHistSteps post := by
    rw [hsplit]
    simp [mkHistSteps]
  have hfailstep : ∀ st : PState, histStep k t st = Except.error e := by
    intro st
    simp [histStep, hfail, Except.map]
  have hmain : process_stock_data d now = runSteps (mkHistSteps pre) [] := by
    rw [process_stock_data, pipelineSteps, hmk]
    simp only [List.append_assoc, List.cons_append]
    rw [runSteps_append_ok _ _ [] (mkHistSteps_ok pre hpre)]
    simp only [runSteps, hfailstep]
  refine ⟨hmain, fun key h => ?_⟩
  rw [hmain] at h
  rcases runSteps_mkHistSteps_keys pre [] key h with h1 | h1
  · exact absurd rfl h1
  · exact h1

/-- The bundle of the C1 counterexample: a historical table whose cleaning
raises (`Volume` column missing), followed by a healthy balance sheet. -/
def wC1Bundle : List (String × Table) :=
  [("historical_1d", onlyCloseT), ("balance_sheet", wBsBoth)]

/-- Counterexample for C1: the historical cleaning raises, and although the
balance sheet's cleaning is total and would have succeeded, the returned
bundle is empty — the other category did not complete and its table is
absent, so the claim as stated is false. -/
theorem process_bundle_partial_failure_cex :
    clean_historical_data onlyCloseT = Except.error "KeyError: Volume" ∧
    (clean_financial_statement wBsBoth "balance_sheet").isEmpty = false ∧
    process_stock_data wC1Bundle 0 = [] ∧
    lookupP (process_stock_data wC1Bundle 0) "balance_sheet" = none := by
  decide

/-- Witness for C1 (amended), at the concrete counterexample bundle: the
failing step is the first historical entry, so the output is the empty run. -/
theorem process_bundle_stops_at_first_failure_witness :
    process_stock_data wC1Bundle 0 = runSteps (mkHistSteps []) [] ∧
    ∀ key, lookupP (process_stock_data wC1Bundle 0) key ≠ none →
      key ∈ ([] : List (String × Table)).map Prod.fst :=
  process_bundle_stops_at_first_failure wC1Bundle 0 [] []
    "historical_1d" onlyCloseT "KeyError: Volume" (by decide) (by simp) (by decide)

/-! ### C5: statement orientation round trip -/

/-- Row labels of a transposed frame are the old column labels. -/
theorem transpose_rowLabels (t : Table) : t.transpose.rowLabels = t.colNames := rfl

/-- Column labels of a transposed frame are the old row labels. -/
theorem transpose_colNames (t : Table) : t.transpose.colNames = t.rowLabels := by
  show (t.rowLabels.enum.map _).map Prod.fst = t.rowLabels
  rw [List.map_map]
  exact List.enum_map_snd t.rowLabels

/-- Axis labels of statement cleaning on a non-empty frame with all-timestamp
columns: the periods move to the row axis and the line items to the column
axis, whatever the category. -/
theorem clean_statement_labels (df : Table) (c : String) (hne : df.isEmpty = false)
    (hts : df.colNames.all Label.isTs = true) :
    (clean_financial_statement df c).rowLabels = df.colNames ∧
    (clean_financial_statement df c).colNames = df.rowLabels := by
  unfold clean_financial_statement
  rw [hne]
  simp only [Bool.false_eq_true, if_false, hts, if_true]
  constructor
  · split
    · exact congrArg Table.rowLabels rfl |>.trans (transpose_rowLabels df)
    · split
      · exact transpose_rowLabels df
      · exact transpose_rowLabels df
  · split
    · rw [show (((df.transpose).mapCells toNumericCell).ffill).colNames =
        ((df.transpose).mapCells toNumericCell).colNames from colNames_ffill _,
        colNames_mapCells, transpose_colNames]
    · split
      · rw [show (((df.transpose).mapCells toNumericCell).fillnaZero).colNames =
          ((df.transpose).mapCells toNumericCell).colNames from colNames_mapCells _ _,
          colNames_mapCells, transpose_colNames]
      · rw [colNames_mapCells, transpose_colNames]

/-- C5 (amended: the period labels must be timezone-naive): for every
non-empty statement table whose column labels are all naive timestamps,
cleaning transposes the periods onto the row axis, and processing the bundle
transposes back, so in the final bundle the statement table again has the
periods as columns and the line items as rows.  (With timezone-aware period
labels the transpose-back dtype test fails and the table stays
transposed — see the counterexample.) -/
theorem statement_round_trip_naive (d : List (String × Table)) (now : Int)
    (df : Table) (key : String)
    (hkey : key = "balance_sheet" ∨ key = "income_statement" ∨ key = "cash_flow")
    (hlk : lookupTable d key = some df)
    (hne : df.isEmpty = false)
    (hcols : df.colNames.all Label.isNaiveTs = true)
    (hhist : ∀ kv ∈ histEntries d, ∃ r, clean_historical_data kv.2 = Except.ok r) :
    (clean_financial_statement df key).rowLabels = df.colNames ∧
    ∃ out : Table, lookupP (process_stock_data d now) key = some (PVal.table out) ∧
      out.colNames = df.colNames ∧ out.rowLabels = df.rowLabels := by
  have hts : df.colNames.all Label.isTs = true := by
    rw [List.all_eq_true] at hcols ⊢
    intro l hl
    have h2 := hcols l hl
    cases l with
    | str s => simp [Label.isNaiveTs] at h2
    | ts t => rfl
  have hclean := clean_statement_labels df key hne hts
  have hcne : df.colNames.isEmpty = false := by
    unfold Table.isEmpty at hne
    rcases Bool.or_eq_false_iff.mp hne with ⟨_, h2⟩
    simpa [Table.colNames] using h2
  have hreor : isNaiveDatetimeDtype (clean_financial_statement df key).rowLabels = true := by
    rw [hclean.1]
    unfold isNaiveDatetimeDtype
    rw [hcne, hcols]
    rfl
  have houtc : (reorientStatement (clean_financial_statement df key)).colNames =
      df.colNames := by
    rw [reorientStatement, if_pos hreor, transpose_colNames]
    exact hclean.1
  have houtr : (reorientStatement (clean_financial_statement df key)).rowLabels =
      df.rowLabels := by
    rw [reorientStatement, if_pos hreor, transpose_rowLabels]
    exact hclean.2
  refine ⟨hclean.1, reorientStatement (clean_financial_statement df key),
    ?_, houtc, houtr⟩
  have hstep : stmtStep d key = [fun s => Except.ok (upsertP s key
      (PVal.table (reorientStatement (clean_financial_statement df key))))] := by
    rw [stmtStep, hlk]
  have hpost2 : ∀ s ∈ [ratioStep, valStep now], ∀ st st2,
      s st = Except.ok st2 → lookupP st2 key = lookupP st key := by
    intro s hs st st2 hok
    rcases List.mem_cons.mp hs with h1 | h1
    · subst h1
      refine ratioStep_preserves key ?_ st st2 hok
      rcases hkey with hk | hk | hk <;> subst hk <;> decide
    · rcases List.mem_cons.mp h1 with h2 | h2
      · subst h2
        refine valStep_preserves now key ?_ st st2 hok
        rcases hkey with hk | hk | hk <;> subst hk <;> decide
      · simp at h2
  rcases hkey with hk | hk | hk
  · subst hk
    rw [process_stock_data, pipelineSteps, hstep]
    simp only [List.append_assoc, List.singleton_append, List.cons_append]
    refine runSteps_key_step (mkHistSteps (histEntries d))
      (stmtStep d "income_statement" ++ (stmtStep d "cash_flow" ++
        [ratioStep, valStep now])) "balance_sheet" _ (mkHistSteps_ok _ hhist) ?_
    intro s hs st st2 hok
    simp only [List.mem_append, List.mem_cons, List.not_mem_nil, or_false] at hs
    rcases hs with h | h | h | h
    · exact stmtStep_preserves d "income_statement" _ (by decide) s h st st2 hok
    · exact stmtStep_preserves d "cash_flow" _ (by decide) s h st st2 hok
    · subst h
      exact ratioStep_preserves _ (by decide) st st2 hok
    · subst h
      exact valStep_preserves now _ (by decide) st st2 hok
  · subst hk
    rw [process_stock_data, pipelineSteps, hstep]
    simp only [List.append_assoc, List.singleton_append, List.cons_append]
    rw [← List.append_assoc (mkHistSteps (histEntries d))]
    refine runSteps_key_step (mkHistSteps (histEntries d) ++ stmtStep d "balance_sheet")
      (stmtStep d "cash_flow" ++ [ratioStep, valStep now]) "income_statement" _ ?_ ?_
    · intro s hs st
      simp only [List.mem_append] at hs
      rcases hs with h1 | h1
      · exact mkHistSteps_ok _ hhist s h1 st
      · exact stmtStep_ok d "balance_sheet" s h1 st
    · intro s hs st st2 hok
      simp only [List.mem_append, List.mem_cons, List.not_mem_nil, or_false] at hs
      rcases hs with h | h | h
      · exact stmtStep_preserves d "cash_flow" _ (by decide) s h st st2 hok
      · subst h
        exact ratioStep_preserves _ (by decide) st st2 hok
      · subst h
        exact valStep_preserves now _ (by decide) st st2 hok
  · subst hk
    rw [process_stock_data, pipelineSteps, hstep]
    simp only [List.append_assoc, List.singleton_append, List.cons_append]
    rw [← List.append_assoc (stmtStep d "balance_sheet"),
      ← List.append_assoc (mkHistSteps (histEntries d))]
    refine runSteps_key_step
      (mkHistSteps (histEntries d) ++ (stmtStep d "balance_sheet" ++
        stmtStep d "income_statement"))
      ([] ++ [ratioStep, valStep now]) "cash_flow" _ ?_ ?_
    · intro s hs st
      simp only [List.mem_append] at hs
      rcases hs with h1 | h1 | h1
      · exact mkHistSteps_ok _ hhist s h1 st
      · exact stmtStep_ok d "balance_sheet" s h1 st
      · exact stmtStep_ok d "income_statement" s h1 st
    · intro s hs st st2 hok
      simp only [List.nil_append, List.mem_cons, List.not_mem_nil, or_false] at hs
      rcases hs with h | h
      · subst h
        exact ratioStep_preserves _ (by decide) st st2 hok
      · subst h
        exact valStep_preserves now _ (by decide) st st2 hok

/-- A statement table whose single period column is a timezone-aware
timestamp. -/
def wAwareBs : Table :=
  { rowLabels := [Label.str "X"]
    cols := [(Label.ts { day := 0, tz := true }, [Cell.num 1])] }

/-- What the pipeline actually stores for the aware-column statement. -/
def wAwareOut : Table :=
  reorientStatement (clean_financial_statement wAwareBs "balance_sheet")

/-- Counterexample for C5: the aware timestamp is a valid timestamp, so
cleaning transposes the periods onto the row axis, but the transpose-back
test `index.dtype == datetime64[ns]` fails for the timezone-aware index, so
the final bundle's statement table still has the period as a row label and
not as a column — the round trip does not restore the orientation. -/
theorem statement_round_trip_tz_aware_cex :
    wAwareBs.isEmpty = false ∧
    wAwareBs.colNames.all Label.isTs = true ∧
    (clean_financial_statement wAwareBs "balance_sheet").rowLabels =
      wAwareBs.colNames ∧
    lookupP (process_stock_data [("balance_sheet", wAwareBs)] 0) "balance_sheet" =
      some (PVal.table wAwareOut) ∧
    wAwareOut.rowLabels = wAwareBs.colNames ∧
    wAwareOut.colNames ≠ wAwareBs.colNames := by
  decide

/-- Witness for C5 (amended) at a concrete naive-column balance sheet. -/
theorem statement_round_trip_naive_witness :
    (clean_financial_statement wBsBoth "balance_sheet").rowLabels =
      wBsBoth.colNames ∧
    ∃ out : Table,
      lookupP (process_stock_data [("balance_sheet", wBsBoth)] 0) "balance_sheet" =
        some (PVal.table out) ∧
      out.colNames = wBsBoth.colNames ∧ out.rowLabels = wBsBoth.rowLabels :=
  statement_round_trip_naive [("balance_sheet", wBsBoth)] 0 wBsBoth "balance_sheet"
    (Or.inl rfl) (by decide) (by decide) (by decide)
    (fun kv h => by
      rw [show histEntries [("balance_sheet", wBsBoth)] = [] from by decide] at h
      cases h)

/-! ### C9: idempotence of the historical cleaner -/

/-- Knownness propagates downward: once a cell is non-null, later cells are
non-null.  Forward-filled columns have this shape (leading nulls, then known
values), and it is exactly the shape on which a second forward fill is the
identity. -/
def kimp (a b : Cell) : Prop := cellKnown a = true → cellKnown b = true

/-- The option-level counterpart of `kimp`. -/
def oimp (a b : Option ℚ) : Prop := a.isSome = true → b.isSome = true

/-- Every output cell of a forward fill from a known carry is known. -/
theorem ffillColGo_all_known (carry : Cell) (xs : List Cell)
    (hc : cellKnown carry = true) :
    ∀ b ∈ ffillColGo carry xs, cellKnown b = true := by
  induction xs generalizing carry with
  | nil => intro b hb; cases hb
  | cons c cs ih =>
    intro b hb
    rcases List.mem_cons.mp hb with h | h
    · subst h
      by_cases hn : c.isNan
      · simpa [ffillColGo, hn] using hc
      · simp [ffillColGo, hn, cellKnown]
    · by_cases hn : c.isNan
      · exact ih carry hc b (by simpa [ffillColGo, hn] using h)
      · exact ih c (by simp [cellKnown, hn]) b (by simpa [ffillColGo, hn] using h)

/-- Forward-fill output is monotone in knownness. -/
theorem ffillColGo_pairwise (carry : Cell) (xs : List Cell) :
    List.Pairwise kimp (ffillColGo carry xs) := by
  induction xs generalizing carry with
  | nil => exact List.Pairwise.nil
  | cons c cs ih =>
    set c2 := if c.isNan then carry else c with hc2
    show List.Pairwise kimp (c2 :: ffillColGo c2 cs)
    refine List.Pairwise.cons (fun b hb hk => ?_) (ih c2)
    exact ffillColGo_all_known c2 cs hk b hb

/-- Forward fill is the identity on an all-known column. -/
theorem ffillColGo_id_of_known (carry : Cell) (xs : List Cell)
    (h : ∀ b ∈ xs, cellKnown b = true) : ffillColGo carry xs = xs := by
  induction xs generalizing carry with
  | nil => rfl
  | cons c cs ih =>
    have hc : cellKnown c = true := h c (List.mem_cons_self c cs)
    have hn : c.isNan = false := by simpa [cellKnown] using hc
    simp only [ffillColGo, hn, Bool.false_eq_true, if_false]
    rw [ih c (fun b hb => h b (List.mem_cons_of_mem c hb))]

/-- Forward fill is the identity on a knownness-monotone column. -/
theorem ffillCol_id_of_pairwise (xs : List Cell) (h : List.Pairwise kimp xs) :
    ffillCol xs = xs := by
  unfold ffillCol
  induction xs with
  | nil => rfl
  | cons c cs ih =>
    rcases List.pairwise_cons.mp h with ⟨hhead, htail⟩
    by_cases hn : c.isNan
    · have hcn : c = Cell.nan := by
        cases c <;> simp [Cell.isNan] at hn ⊢
      subst hcn
      simp only [ffillColGo, Cell.isNan, if_true]
      rw [ih htail]
    · simp only [ffillColGo, hn, Bool.false_eq_true, if_false]
      rw [ffillColGo_id_of_known c cs (fun b hb => hhead b hb (by simp [cellKnown, hn]))]

/-- Masking produces a sublist. -/
theorem maskFilter_sublist (m : List Bool) (xs : List α) :
    List.Sublist (maskFilter m xs) xs := by
  induction xs generalizing m with
  | nil => cases m <;> exact List.Sublist.refl []
  | cons x xr ih =>
    cases m with
    | nil => exact List.nil_sublist _
    | cons b bs =>
      by_cases hb : b = true
      · simpa [maskFilter, hb] using List.Sublist.cons₂ x (ih bs)
      · simp only [maskFilter, hb, Bool.false_eq_true, if_false]
        exact List.Sublist.trans (ih bs) (List.sublist_cons_self x xr)

/-- Masking with an everywhere-true mask at least as long as the list is the
identity. -/
theorem maskFilter_replicate_true (n : Nat) (xs : List α) (h : xs.length ≤ n) :
    maskFilter (List.replicate n true) xs = xs := by
  induction xs generalizing n with
  | nil => cases n <;> rfl
  | cons x xr ih =>
    cases n with
    | zero => simp at h
    | succ k =>
      simp only [List.replicate_succ, maskFilter, if_true]
      rw [ih k (by simpa using h)]

/-- Mask length bound: masking any list is no longer than masking a list at
least as long as the mask. -/
theorem maskFilter_length_le (m : List Bool) :
    ∀ (xs : List α) (ls : List β), m.length ≤ ls.length →
      (maskFilter m xs).length ≤ (maskFilter m ls).length := by
  induction m with
  | nil =>
    intro xs ls _
    cases xs <;> simp [maskFilter]
  | cons b bs ih =>
    intro xs ls hlen
    cases xs with
    | nil => simp [maskFilter]
    | cons x xr =>
      cases ls with
      | nil => simp at hlen
      | cons l lr =>
        by_cases hb : b = true
        · simp only [maskFilter, hb, if_true, List.length_cons]
          exact Nat.succ_le_succ (ih xr lr (by simpa using hlen))
        · simp only [maskFilter, hb, Bool.false_eq_true, if_false]
          exact ih xr lr (by simpa using hlen)

/-- Replacing a binding with its current value is the identity. -/
theorem upsertCol_id (cs : List (Label × List Cell)) (k : Label) (v : List Cell)
    (h : lookupCol cs k = some v) : upsertCol cs k v = cs := by
  induction cs with
  | nil => cases h
  | cons kv rest ih =>
    by_cases hk : kv.1 = k
    · simp only [lookupCol, hk, if_true, Option.some.injEq] at h
      simp only [upsertCol, hk, if_true]
      rw [← h, ← hk]
    · simp only [lookupCol, hk, Bool.false_eq_true, if_false] at h
      simp only [upsertCol, hk, Bool.false_eq_true, if_false]
      rw [ih h]

/-- An upsert result is never empty. -/
theorem upsertCol_ne_nil (cs : List (Label × List Cell)) (k : Label) (v : List Cell) :
    upsertCol cs k v ≠ [] := by
  cases cs with
  | nil => simp [upsertCol]
  | cons kv rest =>
    by_cases hk : kv.1 = k <;> simp [upsertCol, hk]

/-- A member of an upsert is an old binding or the new one. -/
theorem mem_upsertCol (cs : List (Label × List Cell)) (k : Label) (v : List Cell) :
    ∀ kv2 ∈ upsertCol cs k v, kv2 ∈ cs ∨ kv2 = (k, v) := by
  induction cs with
  | nil => intro kv2 h; simpa [upsertCol] using h
  | cons kv rest ih =>
    intro kv2 h
    by_cases hk : kv.1 = k
    · simp only [upsertCol, hk, if_true] at h
      rcases List.mem_cons.mp h with h2 | h2
      · exact Or.inr h2
      · exact Or.inl (List.mem_cons_of_mem kv h2)
    · simp only [upsertCol, hk, Bool.false_eq_true, if_false] at h
      rcases List.mem_cons.mp h with h2 | h2
      · exact Or.inl (h2 ▸ List.mem_cons_self kv rest)
      · rcases ih kv2 h2 with h3 | h3
        · exact Or.inl (List.mem_cons_of_mem kv h3)
        · exact Or.inr h3

/-- A successful lookup is a member. -/
theorem lookupCol_mem (cs : List (Label × List Cell)) (k : Label) (v : List Cell)
    (h : lookupCol cs k = some v) : (k, v) ∈ cs := by
  induction cs with
  | nil => cases h
  | cons kv rest ih =>
    by_cases hk : kv.1 = k
    · simp only [lookupCol, hk, if_true, Option.some.injEq] at h
      have hkv : (k, v) = kv := by rw [← hk, ← h]
      rw [hkv]
      exact List.mem_cons_self kv rest
    · simp only [lookupCol, hk, Bool.false_eq_true, if_false] at h
      exact List.mem_cons_of_mem kv (ih h)

/-- The keep-first mask has the length of its label list. -/
theorem keepMaskGo_length (seen ls : List Label) :
    (keepMaskGo seen ls).length = ls.length := by
  induction ls generalizing seen with
  | nil => rfl
  | cons l lr ih => simp [keepMaskGo, ih]

/-- On duplicate-free labels not yet seen, the keep-first mask is all true. -/
theorem keepMaskGo_all_true (ls : List Label) :
    ∀ seen : List Label, ls.Nodup → (∀ l ∈ ls, seen.contains l = false) →
      keepMaskGo seen ls = List.replicate ls.length true := by
  induction ls with
  | nil => intro seen _ _; rfl
  | cons l lr ih =>
    intro seen hnd hseen
    have hl : seen.contains l = false := hseen l (List.mem_cons_self l lr)
    simp only [keepMaskGo, hl, Bool.not_false, List.length_cons, List.replicate_succ,
      List.cons.injEq, true_and]
    refine ih (l :: seen) (List.Nodup.of_cons hnd) (fun x hx => ?_)
    have hxl : (x == l) = false := by
      rw [beq_eq_false_iff_ne]
      intro hh
      exact (List.nodup_cons.mp hnd).1 (hh ▸ hx)
    rw [List.contains_eq_any_beq, List.any_cons]
    simp only [hxl, Bool.false_or]
    rw [← List.contains_eq_any_beq]
    exact hseen x (List.mem_cons_of_mem l hx)

/-- The keep-first mask of duplicate-free labels is all true. -/
theorem keepMask_nodup_all_true (ls : List Label) (h : ls.Nodup) :
    keepMask ls = List.replicate ls.length true :=
  keepMaskGo_all_true ls [] h (fun _ _ => rfl)

/-- Keep-first row deduplication produces duplicate-free labels. -/
theorem maskFilter_keepMaskGo_nodup (ls : List Label) :
    ∀ seen : List Label,
      (maskFilter (keepMaskGo seen ls) ls).Nodup ∧
      ∀ x ∈ maskFilter (keepMaskGo seen ls) ls, seen.contains x = false := by
  induction ls with
  | nil => intro seen; simp [keepMaskGo, maskFilter]
  | cons l lr ih =>
    intro seen
    by_cases hc : seen.contains l = true
    · simp only [keepMaskGo, hc, Bool.not_true, maskFilter, Bool.false_eq_true, if_false]
      obtain ⟨h1, h2⟩ := ih (l :: seen)
      refine ⟨h1, fun x hx => ?_⟩
      have h3 := h2 x hx
      rw [List.contains_eq_any_beq, List.any_cons] at h3
      rcases Bool.or_eq_false_iff.mp h3 with ⟨_, h4⟩
      rw [List.contains_eq_any_beq]
      exact h4
    · have hc2 : seen.contains l = false := by
        cases hcv : seen.contains l
        · rfl
        · exact absurd hcv hc
      simp only [keepMaskGo, hc2, Bool.not_false, maskFilter, if_true]
      obtain ⟨h1, h2⟩ := ih (l :: seen)
      constructor
      · refine List.Pairwise.cons (fun x hx => ?_) h1
        have h3 := h2 x hx
        rw [List.contains_eq_any_beq, List.any_cons] at h3
        rcases Bool.or_eq_false_iff.mp h3 with ⟨h4, _⟩
        rw [beq_eq_false_iff_ne] at h4
        exact fun hh => h4 hh.symm
      · intro x hx
        rcases List.mem_cons.mp hx with h3 | h3
        · exact h3 ▸ hc2
        · have h4 := h2 x h3
          rw [List.contains_eq_any_beq, List.any_cons] at h4
          rcases Bool.or_eq_false_iff.mp h4 with ⟨_, h5⟩
          rw [List.contains_eq_any_beq]
          exact h5

/-- The deduplicated row labels are duplicate free. -/
theorem maskFilter_keepMask_nodup (ls : List Label) :
    (maskFilter (keepMask ls) ls).Nodup :=
  (maskFilter_keepMaskGo_nodup ls []).1

/-- Deduplication keeps the first row, so a non-empty label list stays
non-empty. -/
theorem maskFilter_keepMask_ne_nil (ls : List Label) (h : ls ≠ []) :
    maskFilter (keepMask ls) ls ≠ [] := by
  cases ls with
  | nil => exact absurd rfl h
  | cons l lr =>
    simp [keepMask, keepMaskGo, maskFilter, List.contains_eq_any_beq]

/-- A table forward fill is the identity when every column is already
knownness-monotone. -/
theorem Table_ffill_id (t : Table) (h : ∀ kv ∈ t.cols, List.Pairwise kimp kv.2) :
    t.ffill = t := by
  unfold Table.ffill
  have h2 : ∀ kv ∈ t.cols, ((fun kv2 : Label × List Cell =>
      (kv2.1, ffillCol kv2.2)) kv) = id kv := by
    intro kv hkv
    show (kv.1, ffillCol kv.2) = kv
    rw [ffillCol_id_of_pairwise kv.2 (h kv hkv)]
  rw [List.map_congr_left h2, List.map_id]

/-- Row deduplication is the identity when the labels are duplicate free and
no column is longer than the label list. -/
theorem Table_dedup_id (t : Table) (hnd : t.rowLabels.Nodup)
    (hlen : ∀ kv ∈ t.cols, kv.2.length ≤ t.rowLabels.length) :
    t.dedupIndex = t := by
  unfold Table.dedupIndex
  rw [keepMask_nodup_all_true _ hnd]
  have hr : maskFilter (List.replicate t.rowLabels.length true) t.rowLabels =
      t.rowLabels := maskFilter_replicate_true _ _ (Nat.le_refl _)
  have h2 : ∀ kv ∈ t.cols, ((fun kv2 : Label × List Cell =>
      (kv2.1, maskFilter (List.replicate t.rowLabels.length true) kv2.2)) kv) =
      id kv := by
    intro kv hkv
    show (kv.1, maskFilter _ kv.2) = kv
    rw [maskFilter_replicate_true _ _ (hlen kv hkv)]
  show Table.mk (maskFilter (List.replicate t.rowLabels.length true) t.rowLabels)
    (t.cols.map (fun kv =>
      (kv.1, maskFilter (List.replicate t.rowLabels.length true) kv.2))) = t
  rw [hr, List.map_congr_left h2, List.map_id]

/-- Every output of an option forward fill from a present carry is present. -/
theorem ffillOGo_all_some (carry : Option ℚ) (xs : List (Option ℚ))
    (hc : carry.isSome = true) : ∀ b ∈ ffillOGo carry xs, b.isSome = true := by
  induction xs generalizing carry with
  | nil => intro b hb; cases hb
  | cons c cs ih =>
    intro b hb
    cases c with
    | some v =>
      rcases List.mem_cons.mp hb with h | h
      · subst h; rfl
      · exact ih (some v) rfl b h
    | none =>
      rcases List.mem_cons.mp hb with h | h
      · subst h; exact hc
      · exact ih carry hc b h

/-- Option forward-fill output is monotone in presence. -/
theorem ffillOGo_pairwise (carry : Option ℚ) (xs : List (Option ℚ)) :
    List.Pairwise oimp (ffillOGo carry xs) := by
  induction xs generalizing carry with
  | nil => exact List.Pairwise.nil
  | cons c cs ih =>
    cases c with
    | some v =>
      exact List.Pairwise.cons
        (fun b hb _ => ffillOGo_all_some (some v) cs rfl b hb) (ih (some v))
    | none =>
      exact List.Pairwise.cons
        (fun b hb hk => ffillOGo_all_some carry cs hk b hb) (ih carry)

/-- A window sequences to a value exactly when every entry is present. -/
theorem allSome_isSome_iff (l : List (Option ℚ)) :
    (allSome l).isSome = true ↔ ∀ x ∈ l, x.isSome = true := by
  induction l with
  | nil => simp [allSome]
  | cons x xs ih =>
    cases x with
    | none => simp [allSome]
    | some v =>
      simp only [allSome]
      constructor
      · intro h y hy
        rcases List.mem_cons.mp hy with h2 | h2
        · subst h2; rfl
        · cases ha : allSome xs with
          | none => rw [ha] at h; simp at h
          | some vs => exact ih.mp (by rw [ha]; rfl) y h2
      · intro h
        have h2 : (allSome xs).isSome = true :=
          ih.mpr (fun y hy => h y (List.mem_cons_of_mem _ hy))
        cases ha : allSome xs with
        | none => rw [ha] at h2; simp at h2
        | some vs => rfl

/-- The length of a forward-filled option series. -/
theorem ffillOGo_length (carry : Option ℚ) (xs : List (Option ℚ)) :
    (ffillOGo carry xs).length = xs.length := by
  induction xs generalizing carry with
  | nil => rfl
  | cons c cs ih => simp [ffillOGo, ih]

/-- The `pct_change` body, with the padded series written out. -/
theorem pctChangeO_eq (xs : List (Option ℚ)) :
    pctChangeO xs = (ffillO xs).enum.map (fun p =>
      if p.1 = 0 then none
      else
        match (ffillO xs).getD (p.1 - 1) none, p.2 with
        | some a, some b => some ((b - a) / a)
        | _, _ => none) := rfl

/-- `pct_change` output is monotone in presence, for every input. -/
theorem pctChangeO_pairwise (xs : List (Option ℚ)) :
    List.Pairwise oimp (pctChangeO xs) := by
  have hyp := List.pairwise_iff_getElem.mp
    (show List.Pairwise oimp (ffillO xs) from ffillOGo_pairwise none xs)
  rw [pctChangeO_eq, List.pairwise_iff_getElem]
  intro i j hi hj hij
  intro hsome
  have hi2 : i < (ffillO xs).length := by simpa using hi
  have hj2 : j < (ffillO xs).length := by simpa using hj
  have hie : i < (ffillO xs).enum.length := by simpa using hi2
  have hje : j < (ffillO xs).enum.length := by simpa using hj2
  rw [List.getElem_map, List.getElem_enum] at hsome ⊢
  by_cases hi0 : i = 0
  · subst hi0
    simp at hsome
  · have hj0 : ¬ j = 0 := by omega
    simp only [hi0, if_false] at hsome
    simp only [hj0, if_false]
    cases hya : (ffillO xs).getD (i - 1) none with
    | none =>
      rw [hya] at hsome
      cases hyb : (ffillO xs)[i] <;> rw [hyb] at hsome <;> simp at hsome
    | some a =>
      cases hyb : (ffillO xs)[i] with
      | none => rw [hya, hyb] at hsome; simp at hsome
      | some b =>
        have hi1 : i - 1 < (ffillO xs).length := by omega
        have hj1 : j - 1 < (ffillO xs).length := by omega
        have hyi1 : (ffillO xs)[i - 1].isSome = true := by
          rw [List.getD_eq_getElem (ffillO xs) none hi1] at hya
          rw [hya]
          rfl
        have hyj1 : ((ffillO xs).getD (j - 1) none).isSome = true := by
          by_cases hij1 : i - 1 = j - 1
          · rw [← hij1, List.getD_eq_getElem (ffillO xs) none hi1]
            exact hyi1
          · rw [List.getD_eq_getElem (ffillO xs) none hj1]
            exact hyp (i - 1) (j - 1) hi1 hj1 (by omega) hyi1
        have hyj : (ffillO xs)[j].isSome = true := by
          refine hyp i j hi2 hj2 hij ?_
          rw [hyb]
          rfl
        cases hyc : (ffillO xs).getD (j - 1) none with
        | none => rw [hyc] at hyj1; simp at hyj1
        | some c =>
          cases hyd : (ffillO xs)[j] with
          | none => rw [hyd] at hyj; simp at hyj
          | some dd => rfl

/-- Rolling aggregation preserves presence-monotonicity. -/
theorem rollingAggO_pairwise (w : Nat) (agg : List ℚ → ℚ) (xs : List (Option ℚ))
    (hxs : List.Pairwise oimp xs) :
    List.Pairwise oimp (rollingAggO w agg xs) := by
  have hx2 := List.pairwise_iff_getElem.mp hxs
  rw [List.pairwise_iff_getElem]
  intro i j hi hj hij
  unfold rollingAggO at hi hj ⊢
  intro hsome
  have hi2 : i < xs.length := by simpa using hi
  have hj2 : j < xs.length := by simpa using hj
  rw [List.getElem_map, List.getElem_range] at hsome ⊢
  by_cases hiw : i + 1 < w
  · simp only [hiw, if_true] at hsome
    simp at hsome
  · have hjw : ¬ j + 1 < w := by omega
    simp only [hiw, if_false] at hsome
    simp only [hjw, if_false]
    have hwin : ∀ m, m < w → ((xs.take (i + 1)).drop (i + 1 - w))[m]? =
        xs[i + 1 - w + m]? := by
      intro m hm
      rw [List.getElem?_drop, List.getElem?_take, if_pos (by omega)]
    have hwinj : ∀ m, m < w → ((xs.take (j + 1)).drop (j + 1 - w))[m]? =
        xs[j + 1 - w + m]? := by
      intro m hm
      rw [List.getElem?_drop, List.getElem?_take, if_pos (by omega)]
    have hall : ∀ x ∈ (xs.take (i + 1)).drop (i + 1 - w), x.isSome = true := by
      rw [← allSome_isSome_iff]
      cases ha : allSome ((xs.take (i + 1)).drop (i + 1 - w)) with
      | none => rw [ha] at hsome; simp at hsome
      | some vs => rfl
    have hlenw : ((xs.take (j + 1)).drop (j + 1 - w)).length = w := by
      rw [List.length_drop, List.length_take]
      omega
    have hxsome : 1 ≤ w → ∀ k, i + 1 - w ≤ k → k ≤ j → (hk : k < xs.length) →
        xs[k].isSome = true := by
      intro hw0 k hk1 hk2 hk
      by_cases hki : k ≤ i
      · have hm : ((xs.take (i + 1)).drop (i + 1 - w))[k - (i + 1 - w)]? =
            xs[k]? := by
          rw [hwin (k - (i + 1 - w)) (by omega)]
          congr 1
          omega
        have hk3 : xs[k]? = some xs[k] := List.getElem?_eq_getElem hk
        rw [hk3] at hm
        have hmem : xs[k] ∈ (xs.take (i + 1)).drop (i + 1 - w) :=
          List.mem_iff_getElem?.mpr ⟨k - (i + 1 - w), hm⟩
        exact hall xs[k] hmem
      · have hisome : xs[i].isSome = true := by
          have hm : ((xs.take (i + 1)).drop (i + 1 - w))[w - 1]? =
              xs[i]? := by
            rw [hwin (w - 1) (by omega)]
            congr 1
            omega
          have hk3 : xs[i]? = some xs[i] := List.getElem?_eq_getElem hi2
          rw [hk3] at hm
          exact hall xs[i] (List.mem_iff_getElem?.mpr ⟨w - 1, hm⟩)
        exact hx2 i k hi2 hk (by omega) hisome
    have hallj : ∀ x ∈ (xs.take (j + 1)).drop (j + 1 - w), x.isSome = true := by
      intro x hx
      obtain ⟨m, hm⟩ := List.mem_iff_getElem?.mp hx
      have hmw : m < w := by
        by_contra hmw
        rw [List.getElem?_eq_none (by omega)] at hm
        cases hm
      rw [hwinj m hmw] at hm
      have hk : j + 1 - w + m < xs.length := by
        by_contra hk
        rw [List.getElem?_eq_none (by omega)] at hm
        cases hm
      have hx2v : xs[j + 1 - w + m] = x := by
        rw [List.getElem?_eq_getElem hk] at hm
        exact Option.some.inj hm
      rw [← hx2v]
      exact hxsome (by omega) (j + 1 - w + m) (by omega) (by omega) hk
    cases ha : allSome ((xs.take (j + 1)).drop (j + 1 - w)) with
    | none =>
      have := (allSome_isSome_iff _).mpr hallj
      rw [ha] at this
      simp at this
    | some vs => rfl

/-- Zero-filling a cell always yields a known cell. -/
theorem fillCellZero_known (c : Cell) : cellKnown (fillCellZero c) = true := by
  cases c <;> simp [fillCellZero, Cell.isNan, cellKnown]

/-- Zero-filling is the identity on known cells. -/
theorem fillCellZero_id_of_known (c : Cell) (h : cellKnown c = true) :
    fillCellZero c = c := by
  cases c <;> simp_all [fillCellZero, Cell.isNan, cellKnown]

/-- An all-known column is knownness-monotone. -/
theorem allKnown_pairwise (xs : List Cell) (h : ∀ c ∈ xs, cellKnown c = true) :
    List.Pairwise kimp xs := by
  rw [List.pairwise_iff_getElem]
  intro i j hi hj _ _
  exact h xs[j] (xs.getElem_mem hj)

/-- `getColE` succeeds exactly on a successful lookup. -/
theorem getColE_ok_iff (t : Table) (k : Label) (v : List Cell) :
    t.getColE k = Except.ok v ↔ lookupCol t.cols k = some v := by
  unfold Table.getColE
  cases h : lookupCol t.cols k <;> simp

/-- Forward fill preserves the column length. -/
theorem ffillColGo_length (carry : Cell) (xs : List Cell) :
    (ffillColGo carry xs).length = xs.length := by
  induction xs generalizing carry with
  | nil => rfl
  | cons c cs ih => simp [ffillColGo, ih]

/-- `numsToCells` preserves the length. -/
theorem numsToCells_length (ns : List (Option ℚ)) :
    (numsToCells ns).length = ns.length := by
  simp [numsToCells]

/-- `pct_change` preserves the length. -/
theorem pctChangeO_length (xs : List (Option ℚ)) :
    (pctChangeO xs).length = xs.length := by
  rw [pctChangeO_eq]
  simp [ffillO, ffillOGo_length]

/-- Rolling aggregation preserves the length. -/
theorem rollingAggO_length (w : Nat) (agg : List ℚ → ℚ) (xs : List (Option ℚ)) :
    (rollingAggO w agg xs).length = xs.length := by
  simp [rollingAggO]

/-- Pointwise content of a successful numeric extraction. -/
theorem colNums_ok_isSome {xs : List Cell} {ns : List (Option ℚ)}
    (h : colNums xs = Except.ok ns) :
    ns.length = xs.length ∧
    ∀ i, i < xs.length →
      (ns.getD i none).isSome = cellKnown (xs.getD i Cell.nan) := by
  obtain ⟨hlen, hpt⟩ := mapME_ok_inv _ Cell.nan (none : Option ℚ) xs ns h
  refine ⟨hlen, fun i hi => ?_⟩
  have hp := hpt i hi
  cases hx : xs.getD i Cell.nan with
  | num q =>
    rw [hx] at hp
    simp only [Except.ok.injEq] at hp
    rw [← hp]
    rfl
  | nan =>
    rw [hx] at hp
    simp only [Except.ok.injEq] at hp
    rw [← hp]
    rfl
  | text s =>
    rw [hx] at hp
    cases hp

/-- A presence-monotone numeric series packs to a knownness-monotone cell
column. -/
theorem numsToCells_pairwise (ns : List (Option ℚ)) (h : List.Pairwise oimp ns) :
    List.Pairwise kimp (numsToCells ns) := by
  unfold numsToCells
  rw [List.pairwise_map]
  refine h.imp ?_
  intro a b hab
  intro hk
  cases a with
  | none => simp [cellKnown, Cell.isNan] at hk
  | some va =>
    have hb := hab rfl
    cases b with
    | none => simp at hb
    | some vb => rfl

/-- The numeric view of a knownness-monotone column is presence-monotone. -/
theorem cells_pairwise_to_nums {xs : List Cell} {ns : List (Option ℚ)}
    (h : colNums xs = Except.ok ns) (hp : List.Pairwise kimp xs) :
    List.Pairwise oimp ns := by
  obtain ⟨hlen, hpt⟩ := colNums_ok_isSome h
  rw [List.pairwise_iff_getElem] at hp ⊢
  intro i j hi hj hij
  intro hsome
  have hi2 : i < xs.length := by omega
  have hj2 : j < xs.length := by omega
  have h1 := hpt i hi2
  have h2 := hpt j hj2
  rw [List.getD_eq_getElem ns none (by omega), List.getD_eq_getElem xs Cell.nan hi2] at h1
  rw [List.getD_eq_getElem ns none (by omega), List.getD_eq_getElem xs Cell.nan hj2] at h2
  rw [h2]
  exact hp i j hi2 hj2 hij (by rw [← h1]; exact hsome)

/-- Extracting the numeric view of a packed numeric series gives it back. -/
theorem colNums_numsToCells (ns : List (Option ℚ)) :
    colNums (numsToCells ns) = Except.ok ns := by
  induction ns with
  | nil => rfl
  | cons c cs ih =>
    cases c with
    | some v =>
      show colNums (Cell.num v :: numsToCells cs) = Except.ok (some v :: cs)
      unfold colNums
      rw [List.mapM_cons]
      show (Except.ok (some v) >>= fun b =>
        (List.mapM _ (numsToCells cs)) >>= fun bs => pure (b :: bs)) = _
      rw [bindE_ok]
      have ih2 : List.mapM _ (numsToCells cs) = Except.ok cs := ih
      rw [ih2, bindE_ok]
      rfl
    | none =>
      show colNums (Cell.nan :: numsToCells cs) = Except.ok (none :: cs)
      unfold colNums
      rw [List.mapM_cons]
      show (Except.ok (none : Option ℚ) >>= fun b =>
        (List.mapM _ (numsToCells cs)) >>= fun bs => pure (b :: bs)) = _
      rw [bindE_ok]
      have ih2 : List.mapM _ (numsToCells cs) = Except.ok cs := ih
      rw [ih2, bindE_ok]
      rfl

/-- Lookup through `setCol` at another key. -/
theorem lookupCol_setCol_ne (t : Table) (k k2 : Label) (v : List Cell)
    (h : k2 ≠ k) : lookupCol (t.setCol k v).cols k2 = lookupCol t.cols k2 :=
  lookupCol_upsertCol_ne t.cols k k2 v h

/-- Lookup through `setCol` at the written key. -/
theorem lookupCol_setCol_self (t : Table) (k : Label) (v : List Cell) :
    lookupCol (t.setCol k v).cols k = some v :=
  lookupCol_upsertCol_self t.cols k v

/-- Lookup through a table forward fill. -/
theorem lookupCol_ffill (t : Table) (k : Label) :
    lookupCol t.ffill.cols k = (lookupCol t.cols k).map ffillCol :=
  lookupCol_mapVal ffillCol t.cols k

/-- Lookup through row deduplication. -/
theorem lookupCol_dedupIndex (t : Table) (k : Label) :
    lookupCol t.dedupIndex.cols k =
      (lookupCol t.cols k).map (maskFilter (keepMask t.rowLabels)) :=
  lookupCol_mapVal (maskFilter (keepMask t.rowLabels)) t.cols k

/-- Row labels after deduplication. -/
theorem rowLabels_dedupIndex (t : Table) :
    t.dedupIndex.rowLabels = maskFilter (keepMask t.rowLabels) t.rowLabels := rfl

/-- A map whose function fixes every element of the list is the identity. -/
theorem map_id_of_fix {α : Type} (f : α → α) (l : List α) (h : ∀ a ∈ l, f a = a) :
    List.map f l = l := by
  induction l with
  | nil => rfl
  | cons x xs ih =>
    simp only [List.map_cons]
    rw [h x (List.mem_cons_self x xs), ih (fun a ha => h a (List.mem_cons_of_mem x ha))]

/-- Writing a column back with its current value is the identity. -/
theorem setCol_id (t : Table) (k : Label) (v : List Cell)
    (h : lookupCol t.cols k = some v) : t.setCol k v = t := by
  show Table.mk t.rowLabels (upsertCol t.cols k v) = t
  rw [upsertCol_id t.cols k v h]

/-- C9: `clean_historical` is idempotent.  A successful first cleaning
produces a frame on which a second cleaning succeeds and changes nothing at
all — in particular every cell that was non-missing after the first
application is unchanged.  (The second fill pass is the identity because
forward-filled columns are knownness-monotone and the volume column has no
nulls left; the deduplicated index has no duplicates left; and the derived
columns are recomputed from the unchanged `Close`, `Returns` and `Volume`
columns by the same functions, yielding the same values.) -/
theorem clean_historical_idempotent (df df₁ : Table)
    (h : clean_historical_data df = Except.ok df₁) :
    clean_historical_data df₁ = Except.ok df₁ := by
  by_cases hemp : df.isEmpty = true
  · rw [clean_historical_data, hemp] at h
    simp only [if_true] at h
    cases h
    rw [clean_historical_data, hemp]
    simp only [if_true]
  · rw [Bool.not_eq_true] at hemp
    rw [clean_historical_data, hemp] at h
    simp only [Bool.false_eq_true, if_false] at h
    obtain ⟨vol, hvol, h⟩ := bindE_ok_inv h
    obtain ⟨close, hclose, h⟩ := bindE_ok_inv h
    obtain ⟨returns, hret, h⟩ := bindE_ok_inv h
    obtain ⟨close2, hclose2, h⟩ := bindE_ok_inv h
    obtain ⟨ma50, hma50, h⟩ := bindE_ok_inv h
    obtain ⟨close3, hclose3, h⟩ := bindE_ok_inv h
    obtain ⟨ma200, hma200, h⟩ := bindE_ok_inv h
    obtain ⟨rets, hrets, h⟩ := bindE_ok_inv h
    obtain ⟨v20, hv20, h⟩ := bindE_ok_inv h
    obtain ⟨volC, hvolC, h⟩ := bindE_ok_inv h
    obtain ⟨vma, hvma, h⟩ := bindE_ok_inv h
    set t3 := (df.setCol (Label.str "Volume")
      (List.map fillCellZero vol)).ffill.dedupIndex with ht3
    set t4 := t3.setCol (Label.str "Returns") returns with ht4
    set t5 := t4.setCol (Label.str "MA_50") ma50 with ht5
    set t6 := t5.setCol (Label.str "MA_200") ma200 with ht6
    set t7 := t6.setCol (Label.str "Volatility_20D") v20 with ht7
    have hdf1 : df₁ = t7.setCol (Label.str "Volume_MA_20") vma :=
      (Except.ok.inj h).symm
    rw [getColE_ok_iff] at hvol hclose hclose2 hclose3 hrets hvolC
    -- the value equalities among the re-read columns
    have hclose2E : close2 = close := by
      rw [ht4, lookupCol_setCol_ne _ _ _ _ (by decide), hclose] at hclose2
      exact (Option.some.inj hclose2).symm
    have hclose3E : close3 = close := by
      rw [ht5, lookupCol_setCol_ne _ _ _ _ (by decide), ht4,
        lookupCol_setCol_ne _ _ _ _ (by decide), hclose] at hclose3
      exact (Option.some.inj hclose3).symm
    have hretsE : rets = returns := by
      rw [ht6, lookupCol_setCol_ne _ _ _ _ (by decide), ht5,
        lookupCol_setCol_ne _ _ _ _ (by decide), ht4,
        lookupCol_setCol_self] at hrets
      exact (Option.some.inj hrets).symm
    -- the lookups on the final frame
    have hlkVolume : lookupCol df₁.cols (Label.str "Volume") = some volC := by
      rw [hdf1, lookupCol_setCol_ne _ _ _ _ (by decide)]
      exact hvolC
    have hlkClose : lookupCol df₁.cols (Label.str "Close") = some close := by
      rw [hdf1, lookupCol_setCol_ne _ _ _ _ (by decide), ht7,
        lookupCol_setCol_ne _ _ _ _ (by decide), ht6,
        lookupCol_setCol_ne _ _ _ _ (by decide), ht5,
        lookupCol_setCol_ne _ _ _ _ (by decide), ht4,
        lookupCol_setCol_ne _ _ _ _ (by decide)]
      exact hclose
    have hlkReturns : lookupCol df₁.cols (Label.str "Returns") = some returns := by
      rw [hdf1, lookupCol_setCol_ne _ _ _ _ (by decide), ht7,
        lookupCol_setCol_ne _ _ _ _ (by decide), ht6,
        lookupCol_setCol_ne _ _ _ _ (by decide), ht5,
        lookupCol_setCol_ne _ _ _ _ (by decide), ht4, lookupCol_setCol_self]
    have hlkMA50 : lookupCol df₁.cols (Label.str "MA_50") = some ma50 := by
      rw [hdf1, lookupCol_setCol_ne _ _ _ _ (by decide), ht7,
        lookupCol_setCol_ne _ _ _ _ (by decide), ht6,
        lookupCol_setCol_ne _ _ _ _ (by decide), ht5, lookupCol_setCol_self]
    have hlkMA200 : lookupCol df₁.cols (Label.str "MA_200") = some ma200 := by
      rw [hdf1, lookupCol_setCol_ne _ _ _ _ (by decide), ht7,
        lookupCol_setCol_ne _ _ _ _ (by decide), ht6, lookupCol_setCol_self]
    have hlkV20 : lookupCol df₁.cols (Label.str "Volatility_20D") = some v20 := by
      rw [hdf1, lookupCol_setCol_ne _ _ _ _ (by decide), ht7, lookupCol_setCol_self]
    have hlkVMA : lookupCol df₁.cols (Label.str "Volume_MA_20") = some vma := by
      rw [hdf1, lookupCol_setCol_self]
    -- the volume column of t3 in closed form
    have hvolD : lookupCol t3.cols (Label.str "Volume") =
        some (maskFilter (keepMask df.rowLabels)
          (ffillCol (List.map fillCellZero vol))) := by
      rw [ht3, lookupCol_dedupIndex, lookupCol_ffill, lookupCol_setCol_self]
      rfl
    have hvolCval : volC = maskFilter (keepMask df.rowLabels)
        (ffillCol (List.map fillCellZero vol)) := by
      rw [ht7, lookupCol_setCol_ne _ _ _ _ (by decide), ht6,
        lookupCol_setCol_ne _ _ _ _ (by decide), ht5,
        lookupCol_setCol_ne _ _ _ _ (by decide), ht4,
        lookupCol_setCol_ne _ _ _ _ (by decide), hvolD] at hvolC
      exact (Option.some.inj hvolC).symm
    have hvolKnown : ∀ c ∈ volC, cellKnown c = true := by
      intro c hc
      rw [hvolCval] at hc
      have hfk : ∀ b ∈ List.map fillCellZero vol, cellKnown b = true := by
        intro b hb
        obtain ⟨a, _, hab⟩ := List.mem_map.mp hb
        rw [← hab]
        exact fillCellZero_known a
      simp only [ffillCol] at hc
      rw [ffillColGo_id_of_known Cell.nan _ hfk] at hc
      exact hfk c ((maskFilter_sublist _ _).subset hc)
    -- membership structure of the final frame's columns
    have hmem : ∀ kv ∈ df₁.cols, kv ∈ t3.cols ∨
        kv = (Label.str "Returns", returns) ∨ kv = (Label.str "MA_50", ma50) ∨
        kv = (Label.str "MA_200", ma200) ∨
        kv = (Label.str "Volatility_20D", v20) ∨
        kv = (Label.str "Volume_MA_20", vma) := by
      intro kv hkv
      rw [hdf1] at hkv
      rcases mem_upsertCol _ _ _ kv hkv with h1 | h1
      · rw [ht7] at h1
        rcases mem_upsertCol _ _ _ kv h1 with h2 | h2
        · rw [ht6] at h2
          rcases mem_upsertCol _ _ _ kv h2 with h3 | h3
          · rw [ht5] at h3
            rcases mem_upsertCol _ _ _ kv h3 with h4 | h4
            · rw [ht4] at h4
              rcases mem_upsertCol _ _ _ kv h4 with h5 | h5
              · exact Or.inl h5
              · exact Or.inr (Or.inl h5)
            · exact Or.inr (Or.inr (Or.inl h4))
          · exact Or.inr (Or.inr (Or.inr (Or.inl h3)))
        · exact Or.inr (Or.inr (Or.inr (Or.inr (Or.inl h2))))
      · exact Or.inr (Or.inr (Or.inr (Or.inr (Or.inr h1))))
    -- every column of t3 is knownness-monotone and short enough
    have ht3rows : t3.rowLabels = maskFilter (keepMask df.rowLabels) df.rowLabels := by
      rw [ht3]
      rfl
    have ht3pair : ∀ kv ∈ t3.cols, List.Pairwise kimp kv.2 := by
      intro kv hkv
      rw [ht3] at hkv
      simp only [Table.dedupIndex, Table.ffill, List.mem_map] at hkv
      obtain ⟨kv2, hkv2, hkveq⟩ := hkv
      rw [← hkveq]
      refine List.Pairwise.sublist (maskFilter_sublist _ _) ?_
      obtain ⟨kv1, _, hkv1eq⟩ := hkv2
      rw [← hkv1eq]
      simp only [ffillCol]
      exact ffillColGo_pairwise Cell.nan kv1.2
    have ht3len : ∀ kv ∈ t3.cols, kv.2.length ≤ t3.rowLabels.length := by
      intro kv hkv
      rw [ht3rows]
      rw [ht3] at hkv
      simp only [Table.dedupIndex, List.mem_map] at hkv
      obtain ⟨kv2, _, hkveq⟩ := hkv
      rw [← hkveq]
      show (maskFilter (keepMask df.rowLabels) kv2.2).length ≤
        (maskFilter (keepMask df.rowLabels) df.rowLabels).length
      refine maskFilter_length_le _ _ _ ?_
      show (keepMaskGo [] df.rowLabels).length ≤ df.rowLabels.length
      rw [keepMaskGo_length]
    -- membership of the volume column in t3
    have hvolMem : (Label.str "Volume", volC) ∈ t3.cols := by
      refine lookupCol_mem _ _ _ ?_
      rw [hvolD, hvolCval]
    -- the close column and its derived series
    have hcloseMem : (Label.str "Close", close) ∈ t3.cols :=
      lookupCol_mem _ _ _ hclose
    have hclosePair : List.Pairwise kimp close := ht3pair _ hcloseMem
    have hcloseLen : close.length ≤ t3.rowLabels.length := ht3len _ hcloseMem
    have hret2 := hret
    simp only [pctChangeColE] at hret2
    obtain ⟨nsC, hnsC, hretv⟩ := mapE_ok_inv hret2
    have hretv2 : returns = numsToCells (pctChangeO nsC) := hretv
    have hnsCpair : List.Pairwise oimp nsC := cells_pairwise_to_nums hnsC hclosePair
    have hretPair : List.Pairwise kimp returns := by
      rw [hretv2]
      exact numsToCells_pairwise _ (pctChangeO_pairwise nsC)
    have hnsClen : nsC.length = close.length := (colNums_ok_isSome hnsC).1
    have hretLen : returns.length ≤ t3.rowLabels.length := by
      rw [hretv2, numsToCells_length, pctChangeO_length, hnsClen]
      exact hcloseLen
    -- MA_50
    rw [hclose2E] at hma50
    have hma50b := hma50
    simp only [rollingMeanColE] at hma50b
    obtain ⟨nsC2, hnsC2, hma50v⟩ := mapE_ok_inv hma50b
    have hnsC2e : nsC2 = nsC := by
      rw [hnsC] at hnsC2
      exact (Except.ok.inj hnsC2).symm
    have hma50v2 : ma50 = numsToCells (rollingMeanO 50 nsC) := by
      rw [hnsC2e] at hma50v
      exact hma50v
    have hma50Pair : List.Pairwise kimp ma50 := by
      rw [hma50v2]
      exact numsToCells_pairwise _ (rollingAggO_pairwise 50 meanQ nsC hnsCpair)
    have hma50Len : ma50.length ≤ t3.rowLabels.length := by
      rw [hma50v2, numsToCells_length]
      show (rollingAggO 50 meanQ nsC).length ≤ _
      rw [rollingAggO_length, hnsClen]
      exact hcloseLen
    -- MA_200
    rw [hclose3E] at hma200
    have hma200b := hma200
    simp only [rollingMeanColE] at hma200b
    obtain ⟨nsC3, hnsC3, hma200v⟩ := mapE_ok_inv hma200b
    have hnsC3e : nsC3 = nsC := by
      rw [hnsC] at hnsC3
      exact (Except.ok.inj hnsC3).symm
    have hma200v2 : ma200 = numsToCells (rollingMeanO 200 nsC) := by
      rw [hnsC3e] at hma200v
      exact hma200v
    have hma200Pair : List.Pairwise kimp ma200 := by
      rw [hma200v2]
      exact numsToCells_pairwise _ (rollingAggO_pairwise 200 meanQ nsC hnsCpair)
    have hma200Len : ma200.length ≤ t3.rowLabels.length := by
      rw [hma200v2, numsToCells_length]
      show (rollingAggO 200 meanQ nsC).length ≤ _
      rw [rollingAggO_length, hnsClen]
      exact hcloseLen
    -- Volatility_20D
    rw [hretsE] at hv20
    have hv20b := hv20
    simp only [rollingStdColE] at hv20b
    obtain ⟨nsR, hnsR, hv20v⟩ := mapE_ok_inv hv20b
    have hnsRe : nsR = pctChangeO nsC := by
      have h2 := hnsR
      rw [hretv2, colNums_numsToCells] at h2
      exact (Except.ok.inj h2).symm
    have hv20v2 : v20 = numsToCells (rollingStdO 20 nsR) := hv20v
    have hv20Pair : List.Pairwise kimp v20 := by
      rw [hv20v2]
      refine numsToCells_pairwise _ ?_
      refine rollingAggO_pairwise 20 sampleStd nsR ?_
      rw [hnsRe]
      exact pctChangeO_pairwise nsC
    have hv20Len : v20.length ≤ t3.rowLabels.length := by
      rw [hv20v2, numsToCells_length]
      show (rollingAggO 20 sampleStd nsR).length ≤ _
      rw [rollingAggO_length, (colNums_ok_isSome hnsR).1]
      exact hretLen
    -- Volume_MA_20
    have hvma2 := hvma
    simp only [rollingMeanColE] at hvma2
    obtain ⟨nsV, hnsV, hvmav⟩ := mapE_ok_inv hvma2
    have hvolPair : List.Pairwise kimp volC := allKnown_pairwise _ hvolKnown
    have hvmav2 : vma = numsToCells (rollingMeanO 20 nsV) := hvmav
    have hvmaPair : List.Pairwise kimp vma := by
      rw [hvmav2]
      exact numsToCells_pairwise _
        (rollingAggO_pairwise 20 meanQ nsV (cells_pairwise_to_nums hnsV hvolPair))
    have hvolLen : volC.length ≤ t3.rowLabels.length := ht3len _ hvolMem
    have hvmaLen : vma.length ≤ t3.rowLabels.length := by
      rw [hvmav2, numsToCells_length]
      show (rollingAggO 20 meanQ nsV).length ≤ _
      rw [rollingAggO_length, (colNums_ok_isSome hnsV).1]
      exact hvolLen
    -- global structure facts on the output frame
    have hrows1 : df₁.rowLabels = t3.rowLabels := by
      rw [hdf1, ht7, ht6, ht5, ht4]
      rfl
    have hdf1pair : ∀ kv ∈ df₁.cols, List.Pairwise kimp kv.2 := by
      intro kv hkv
      rcases hmem kv hkv with h1 | h1 | h1 | h1 | h1 | h1
      · exact ht3pair kv h1
      · rw [h1]; exact hretPair
      · rw [h1]; exact hma50Pair
      · rw [h1]; exact hma200Pair
      · rw [h1]; exact hv20Pair
      · rw [h1]; exact hvmaPair
    have hdf1len : ∀ kv ∈ df₁.cols, kv.2.length ≤ df₁.rowLabels.length := by
      intro kv hkv
      rw [hrows1]
      rcases hmem kv hkv with h1 | h1 | h1 | h1 | h1 | h1
      · exact ht3len kv h1
      · rw [h1]; exact hretLen
      · rw [h1]; exact hma50Len
      · rw [h1]; exact hma200Len
      · rw [h1]; exact hv20Len
      · rw [h1]; exact hvmaLen
    have hdfrow : df.rowLabels ≠ [] := by
      intro hn
      unfold Table.isEmpty at hemp
      rw [hn] at hemp
      simp at hemp
    have hnd1 : df₁.rowLabels.Nodup := by
      rw [hrows1, ht3rows]
      exact maskFilter_keepMask_nodup df.rowLabels
    have hemp1 : df₁.isEmpty = false := by
      have h1 : df₁.rowLabels ≠ [] := by
        rw [hrows1, ht3rows]
        exact maskFilter_keepMask_ne_nil df.rowLabels hdfrow
      have h2 : df₁.cols ≠ [] := by
        rw [hdf1]
        exact upsertCol_ne_nil t7.cols (Label.str "Volume_MA_20") vma
      unfold Table.isEmpty
      cases hc1 : df₁.rowLabels with
      | nil => exact absurd hc1 h1
      | cons a as =>
        cases hc2 : df₁.cols with
        | nil => exact absurd hc2 h2
        | cons b bs => rfl
    -- the second pass is the identity
    have F_B : List.map fillCellZero volC = volC :=
      map_id_of_fix fillCellZero volC
        (fun a ha => fillCellZero_id_of_known a (hvolKnown a ha))
    have F_ff : df₁.ffill = df₁ := Table_ffill_id df₁ hdf1pair
    have F_dd : df₁.dedupIndex = df₁ := Table_dedup_id df₁ hnd1 hdf1len
    rw [clean_historical_data, hemp1]
    simp only [Bool.false_eq_true, if_false]
    rw [(getColE_ok_iff df₁ (Label.str "Volume") volC).mpr hlkVolume]
    simp only [bindE_ok]
    rw [F_B, setCol_id df₁ (Label.str "Volume") volC hlkVolume, F_ff, F_dd]
    rw [(getColE_ok_iff df₁ (Label.str "Close") close).mpr hlkClose]
    simp only [bindE_ok]
    rw [hret]
    simp only [bindE_ok]
    rw [setCol_id df₁ (Label.str "Returns") returns hlkReturns]
    rw [(getColE_ok_iff df₁ (Label.str "Close") close).mpr hlkClose]
    simp only [bindE_ok]
    rw [hma50]
    simp only [bindE_ok]
    rw [setCol_id df₁ (Label.str "MA_50") ma50 hlkMA50]
    rw [(getColE_ok_iff df₁ (Label.str "Close") close).mpr hlkClose]
    simp only [bindE_ok]
    rw [hma200]
    simp only [bindE_ok]
    rw [setCol_id df₁ (Label.str "MA_200") ma200 hlkMA200]
    rw [(getColE_ok_iff df₁ (Label.str "Returns") returns).mpr hlkReturns]
    simp only [bindE_ok]
    rw [hv20]
    simp only [bindE_ok]
    rw [setCol_id df₁ (Label.str "Volatility_20D") v20 hlkV20]
    rw [(getColE_ok_iff df₁ (Label.str "Volume") volC).mpr hlkVolume]
    simp only [bindE_ok]
    rw [hvma]
    simp only [bindE_ok]
    rw [setCol_id df₁ (Label.str "Volume_MA_20") vma hlkVMA]

/-- A one-row historical frame with a known close and a missing volume. -/
def wHist : Table :=
  { rowLabels := [Label.str "d1"]
    cols := [(Label.str "Close", [Cell.num 10]), (Label.str "Volume", [Cell.nan])] }

/-- The frame produced by cleaning `wHist` once. -/
def wHistCleaned : Table :=
  match clean_historical_data wHist with
  | Except.ok t => t
  | Except.error _ => emptyT

theorem clean_historical_idempotent_witness :
    clean_historical_data wHistCleaned = Except.ok wHistCleaned :=
  clean_historical_idempotent wHist wHistCleaned rfl
